import Mathlib

/-!
# Verification of the rule-engine core and its graph projection

Shallow embedding of the condition/rule model of this repository:

* the client-side rule-engine simulator (`RuleEngineSimulator` in the
  `ruleEngineSimulator` module): rule sorting, rule/condition evaluation,
  operator semantics, fact resolution, structural validation;
* the visual-editor projections `ruleToFlow` (tree → graph) and
  `flowToRule` (graph → tree), plus `validateRule`/`validateFlow`.

JavaScript values are modelled by the inductive `Value`; JS `null` inputs by
`Option`; thrown exceptions by `Except String`.  JS numbers are modelled at
integer precision (`Int`); no claim below depends on fractional or NaN
arithmetic, and `Number(...)` coercions that would produce NaN are modelled
as `none`.  The JS regular-expression engine behind
`new RegExp(e).test(a)` is an explicit parameter `rt` of the evaluator
(its `try/catch` makes the call total), so theorems about the ReDoS guard
hold for every possible regex engine behaviour.
-/

/-- A JavaScript runtime value (the subset occurring in rule documents).
`arr` equality under `===` is reference equality; distinct literals compare
unequal, which `valueEq` reflects. -/
inductive Value where
  | str (s : String)
  | num (n : Int)
  | bool (b : Bool)
  | null
  | undef
  | arr (elems : List Value)
deriving Repr

/-- JS truthiness of a `Value`. -/
def truthy : Value → Bool
  | .str s => s ≠ ""
  | .num n => n ≠ 0
  | .bool b => b
  | .null => false
  | .undef => false
  | .arr _ => true

/-- JS truthiness of a possibly-absent string field. -/
def truthyS : Option String → Bool
  | some s => s ≠ ""
  | none => false

/-- `a || b` for string fields (`b` already resolved). -/
def jsOrS : Option String → String → String
  | some a, b => if a = "" then b else a
  | none, b => b

mutual
/-- JS `String(v)` (the ToString abstract operation, also used for property
keys). -/
def toStringJS : Value → String
  | .str s => s
  | .num n => toString n
  | .bool b => if b then "true" else "false"
  | .null => "null"
  | .undef => "undefined"
  | .arr l => arrToStringJS l

/-- `Array.prototype.toString` = `join(',')`; `null`/`undefined` elements
render as the empty string. -/
def arrToStringJS : List Value → String
  | [] => ""
  | [v] => elemToStringJS v
  | v :: rest => elemToStringJS v ++ "," ++ arrToStringJS rest

def elemToStringJS : Value → String
  | .null => ""
  | .undef => ""
  | v => toStringJS v
end

/-- JS `String.prototype.trim` (whitespace stripped from both ends),
defined over the character list so that it computes by `rfl`/`decide`. -/
def jsTrim (s : String) : String :=
  ⟨((s.data.dropWhile Char.isWhitespace).reverse.dropWhile
      Char.isWhitespace).reverse⟩

/-- Parse of a decimal integer string for `Number(...)`; whitespace-only and
empty strings give 0, anything non-integral gives `none` (NaN). -/
def parseJsNumber (s : String) : Option Int :=
  let t := jsTrim s
  if t = "" then some 0
  else if t.startsWith "-" then
    (parseDigits (t.drop 1).data).map (fun n => -(n : Int))
  else if t.startsWith "+" then
    (parseDigits (t.drop 1).data).map (fun n => (n : Int))
  else
    (parseDigits t.data).map (fun n => (n : Int))
where
  parseDigits : List Char → Option Nat
    | [] => none
    | cs => go cs 0
  go : List Char → Nat → Option Nat
    | [], acc => some acc
    | c :: cs, acc =>
      if c.isDigit then go cs (acc * 10 + (c.toNat - '0'.toNat)) else none

/-- JS `Number(v)` at integer precision; `none` models NaN. -/
def toNumber : Value → Option Int
  | .num n => some n
  | .bool b => some (if b then 1 else 0)
  | .null => some 0
  | .undef => none
  | .str s => parseJsNumber s
  | .arr l => parseJsNumber (arrToStringJS l)

/-- JS strict equality `===` on modelled values.  Two `arr` values are
distinct objects, so `===` is false. -/
def valueEq : Value → Value → Bool
  | .str a, .str b => a = b
  | .num a, .num b => a = b
  | .bool a, .bool b => a = b
  | .null, .null => true
  | .undef, .undef => true
  | _, _ => false

/-- Is `v` the exact string `s` (the shape of `v === 'lit'` checks)? -/
def isStr (v : Value) (s : String) : Bool :=
  valueEq v (.str s)

/-- Boolean list-prefix test on characters. -/
def isPrefixL : List Char → List Char → Bool
  | [], _ => true
  | _ :: _, [] => false
  | a :: as, b :: bs => a = b && isPrefixL as bs

/-- Boolean contiguous-sublist test; `String.prototype.includes`. -/
def isInfixL (needle : List Char) : List Char → Bool
  | [] => isPrefixL needle []
  | hay@(_ :: tl) => isPrefixL needle hay || isInfixL needle tl

/-- `a.includes(b)` on strings. -/
def strIncludes (hay needle : String) : Bool :=
  isInfixL needle.data hay.data

/-- Is the character a regex quantifier `+` or `*`? -/
def isQuant (c : Char) : Bool := c = '+' || c = '*'

/-- Matcher for the tail of `/\([^)]*[+*]\)[+*]/` after the opening paren:
requires the first `)` of the list to be preceded and followed by a
quantifier. -/
def nqTail : List Char → Bool
  | c1 :: c2 :: c3 :: rest =>
    if c2 = ')' then isQuant c1 && isQuant c3
    else if c1 = ')' then false
    else nqTail (c2 :: c3 :: rest)
  | _ => false

/-- `/\([^)]*[+*]\)[+*]/.test` : a nested-quantifier shape such as
`(a+)+` occurs somewhere in the pattern. -/
def hasNestedQuant : List Char → Bool
  | [] => false
  | c :: rest => (c = '(' && nqTail rest) || hasNestedQuant rest

/-- Matcher for the tail of `/\([^)]*\|[^)]*\)[+*]/` after the opening
paren: the first `)` must be preceded (not necessarily immediately) by a
`|` and followed by a quantifier. -/
def arTail (sawBar : Bool) : List Char → Bool
  | [] => false
  | c :: rest =>
    if c = ')' then
      sawBar && (match rest with | q :: _ => isQuant q | [] => false)
    else arTail (sawBar || c = '|') rest

/-- `/\([^)]*\|[^)]*\)[+*]/.test` : alternation-with-repetition shape. -/
def hasAltRep : List Char → Bool
  | [] => false
  | c :: rest => (c = '(' && arTail false rest) || hasAltRep rest

/-- Is the character a JS line terminator (not matched by `.`)? -/
def isLineTerm (c : Char) : Bool :=
  c = '\n' || c = '\r' || c = '\u2028' || c = '\u2029'

/-- `/(.)\1/.test` : some non-line-terminator character occurs twice in a
row. -/
def hasRepeat : List Char → Bool
  | c1 :: c2 :: rest => (!isLineTerm c1 && c1 = c2) || hasRepeat (c2 :: rest)
  | _ => false

/-! ## Condition model and rule envelope -/

/-- A rule condition (`RuleCondition` in the editor's `types` module): a
tagged tree with logical nodes `all`/`any`/`not`, fact leaves, and named
condition references (the `condition` field).  Leaf fields hold arbitrary
JS values, as in the source where the record fields are untyped. -/
inductive Condition where
  | all (children : List Condition)
  | any (children : List Condition)
  | not (child : Condition)
  | fact (factName : Value) (params : Option (List (String × Value)))
      (oper : Value) (value : Value)
  | ref (name : Value)
deriving Repr

/-- One recorded leaf check (`ConditionResult`). -/
structure ConditionResult where
  fact : String
  oper : String
  expected : Value
  actual : Value
  passed : Bool
deriving Repr

/-- Per-rule trace entry (`RuleEvaluationResult`). -/
structure RuleEvaluationResult where
  ruleName : String
  passed : Bool
  conditions : List ConditionResult
deriving Repr

/-- Event params of a rule (`event.params`). -/
structure EventParams where
  destination : Option String := none
  priority : Option String := none
  reason : Option String := none
deriving Repr, DecidableEq

/-- Rule event; `ty` embeds the JS field `type`. -/
structure RuleEvent where
  ty : Option String := none
  params : Option EventParams := none
deriving Repr, DecidableEq

/-- Saved node position. -/
structure Pos where
  x : Int
  y : Int
deriving Repr, DecidableEq

/-- Saved layout (`layout.nodes`), keyed by node id. -/
structure RuleLayout where
  nodes : Option (List (String × Pos)) := none
deriving Repr, DecidableEq

/-- A rule document.  `priority : Option Int` embeds the JS field that may
hold a non-number (`none`); `conditions`/`event` may be absent. -/
structure Rule where
  name : String := ""
  descr : Option String := none
  priority : Option Int := none
  defaultDestination : Option String := none
  conditions : Option Condition := none
  event : Option RuleEvent := none
  layout : Option RuleLayout := none
deriving Repr

/-- The input fact map; `none` embeds a JS `null`/`undefined` input, whose
property accesses throw. -/
def Input := Option (List (String × Value))

/-- Condition params object. -/
def Params := List (String × Value)

/-- Assoc-list lookup modelling JS property access `obj[key]` on a
non-null object (`undefined` when absent). -/
def getProp (m : List (String × Value)) (key : String) : Value :=
  match m.find? (fun p => p.1 = key) with
  | none => .undef
  | some p => p.2

/-- JS property access `input[key]` : throws a `TypeError` when the input
is `null`/`undefined`. -/
def getInputProp (input : Input) (key : String) : Except String Value :=
  match input with
  | none => .error "TypeError: cannot read properties of null"
  | some m => .ok (getProp m key)

/-- A dynamic fact: an arbitrary JS function of (params, input), which may
throw. -/
def DynFact := Params → Input → Except String Value

/-- A dynamic-fact registry (the simulator's `dynamicFacts` map). -/
def Registry := String → Option DynFact

/-- The ambient clock consulted by the time-based built-in facts. -/
structure Clock where
  day : Int
  hour : Int
  nowMs : Int

/-- The five built-in dynamic facts registered by
`registerDynamicFacts` (the simulator's registry is fixed to these). -/
def builtinFacts (clock : Clock) : Registry := fun name =>
  if name = "isBusinessHours" then
    some (fun _ _ => .ok (.bool
      (clock.day ≥ 1 && clock.day ≤ 5 && clock.hour ≥ 9 && clock.hour < 17)))
  else if name = "hasKey" then
    some (fun params input =>
      match input with
      | none => .error "TypeError: cannot read properties of null"
      | some m =>
        .ok (.bool (m.any (fun p => p.1 = toStringJS (getProp params "key")))))
  else if name = "keyCount" then
    some (fun _ input =>
      match input with
      | none => .error "TypeError: cannot convert null to object"
      | some m => .ok (.num m.length))
  else if name = "currentTimestamp" then
    some (fun _ _ => .ok (.num clock.nowMs))
  else if name = "currentHour" then
    some (fun _ _ => .ok (.num clock.hour))
  else none

/-- Fact-value resolution of `evaluateFactCondition` (the `actual` value and
displayed fact name).  Order in the source: the synthetic `inputValue` fact
(when a truthy `params.key` is present), then a registered dynamic fact,
then a direct input lookup. -/
def resolveActual (reg : Registry) (factName : Value) (params : Option Params)
    (input : Input) : Except String Value × String :=
  let keyV := getProp (params.getD []) "key"
  if isStr factName "inputValue" && truthy keyV then
    (getInputProp input (toStringJS keyV), "inputValue." ++ toStringJS keyV)
  else
    match factName with
    | .str s =>
      match reg s with
      | some f => (f (params.getD []) input, s)
      | none => (getInputProp input s, s)
    | v => (getInputProp input (toStringJS v), toStringJS v)

/-- Operator semantics (`evaluateOperator`).  `rt` is the behaviour of
`new RegExp(e).test(a)` wrapped in the source's `try/catch`. -/
def evaluateOperator (rt : String → String → Bool)
    (actual : Value) (oper : Value) (expected : Value) : Bool :=
  match oper with
  | .str o =>
    if o = "equal" then valueEq actual expected
    else if o = "notEqual" then !valueEq actual expected
    else if o = "in" then
      match expected with
      | .arr l => l.any (fun v => valueEq v actual)
      | _ => false
    else if o = "notIn" then
      match expected with
      | .arr l => !l.any (fun v => valueEq v actual)
      | _ => false
    else if o = "contains" then
      match actual, expected with
      | .str a, .str e => strIncludes a.toLower e.toLower
      | _, _ => false
    else if o = "doesNotContain" then
      match actual, expected with
      | .str a, .str e => !strIncludes a.toLower e.toLower
      | _, _ => false
    else if o = "lessThan" || o = "lt" then
      match toNumber actual, toNumber expected with
      | some a, some e => a < e
      | _, _ => false
    else if o = "lessThanOrEqual" || o = "lte" then
      match toNumber actual, toNumber expected with
      | some a, some e => a ≤ e
      | _, _ => false
    else if o = "greaterThan" || o = "gt" then
      match toNumber actual, toNumber expected with
      | some a, some e => a > e
      | _, _ => false
    else if o = "greaterThanOrEqual" || o = "gte" then
      match toNumber actual, toNumber expected with
      | some a, some e => a ≥ e
      | _, _ => false
    else if o = "startsWith" then
      match actual, expected with
      | .str a, .str e => a.startsWith e
      | _, _ => false
    else if o = "endsWith" then
      match actual, expected with
      | .str a, .str e => a.endsWith e
      | _, _ => false
    else if o = "matchesPattern" then
      match actual, expected with
      | .str a, .str e =>
        if e.length > 1000 then false
        else if hasNestedQuant e.data then false
        else if hasAltRep e.data && hasRepeat e.data then false
        else rt e a
      | _, _ => false
    else if o = "containsAny" then
      match expected with
      | .arr l => l.any (fun v =>
          match actual with
          | .str a => strIncludes a.toLower (toStringJS v).toLower
          | _ => false)
      | _ => false
    else if o = "containsAll" then
      match expected with
      | .arr l => l.all (fun v =>
          match actual with
          | .str a => strIncludes a.toLower (toStringJS v).toLower
          | _ => false)
      | _ => false
    else if o = "exists" then
      match actual with
      | .undef => false
      | .null => false
      | _ => true
    else if o = "doesNotExist" then
      match actual with
      | .undef => true
      | .null => true
      | _ => false
    else false
  | _ => false

/-- The trace entry records `'undefined'` (the string) in place of an
undefined actual value. -/
def displayActual : Value → Value
  | .undef => .str "undefined"
  | v => v

/-- Leaf evaluation (`evaluateFactCondition`): resolve the actual value
(possibly throwing), evaluate the operator, record the check. -/
def evalFactCondition (rt : String → String → Bool) (reg : Registry)
    (factName : Value) (params : Option Params) (oper : Value) (value : Value)
    (input : Input) : Except String Bool × List ConditionResult :=
  match resolveActual reg factName params input with
  | (.error e, _) => (.error e, [])
  | (.ok actual, shown) =>
    let passed := evaluateOperator rt actual oper value
    (.ok passed,
      [{ fact := shown, oper := toStringJS oper, expected := value,
         actual := displayActual actual, passed := passed }])

/-- First rejection of a `Promise.all` (by index order), else the list of
resolved booleans. -/
def collectResults : List (Except String Bool) → Except String (List Bool)
  | [] => .ok []
  | .error e :: _ => .error e
  | .ok b :: rest =>
    match collectResults rest with
    | .error e => .error e
    | .ok bs => .ok (b :: bs)

mutual
/-- Recursive condition evaluation
(`evaluateConditions`/`evaluateCondition`): returns the result (or the
thrown error) together with the leaf checks pushed by this call, in
depth-first left-to-right order.  Under `Promise.all` every child runs (and
records its checks) even when a sibling throws; the first rejection wins. -/
def evalConds (rt : String → String → Bool) (reg : Registry)
    (c : Condition) (input : Input) : Except String Bool × List ConditionResult :=
  match c with
  | .all cs =>
    let (results, trace) := evalCondList rt reg cs input
    (Except.map (fun bs => bs.all id) (collectResults results), trace)
  | .any cs =>
    let (results, trace) := evalCondList rt reg cs input
    (Except.map (fun bs => bs.any id) (collectResults results), trace)
  | .not c1 =>
    match evalConds rt reg c1 input with
    | (.ok b, trace) => (.ok !b, trace)
    | (.error e, trace) => (.error e, trace)
  | .ref _ =>
    -- reference conditions are unsupported in the simulator: logged and
    -- false whether or not the reference name is truthy
    (.ok false, [])
  | .fact f p o v =>
    -- `if (condition.fact)` : a falsy fact field falls through to the
    -- final `return false` without recording a check
    if truthy f then evalFactCondition rt reg f p o v input
    else (.ok false, [])

def evalCondList (rt : String → String → Bool) (reg : Registry)
    (cs : List Condition) (input : Input) :
    List (Except String Bool) × List ConditionResult :=
  match cs with
  | [] => ([], [])
  | c :: rest =>
    let (r, tr) := evalConds rt reg c input
    let (rs, trs) := evalCondList rt reg rest input
    (r :: rs, tr ++ trs)
end

/-- Single-rule evaluation (`evaluateRule`): a thrown exception is caught
and treated as "did not match", keeping the checks recorded so far. -/
def evaluateRule (rt : String → String → Bool) (reg : Registry)
    (rule : Rule) (input : Input) : RuleEvaluationResult :=
  match rule.conditions with
  | none => { ruleName := rule.name, passed := false, conditions := [] }
  | some c =>
    match evalConds rt reg c input with
    | (.ok b, trace) => { ruleName := rule.name, passed := b, conditions := trace }
    | (.error _, trace) => { ruleName := rule.name, passed := false, conditions := trace }

/-- Sort key: `typeof priority === 'number' ? priority : 0`. -/
def effPriority (r : Rule) : Int := r.priority.getD 0

/-- `[...rules].sort((a, b) => priorityB - priorityA)` : the stable (per
the ES spec) sort by priority descending, i.e. the stable insertion sort
under "not lower priority". -/
def sortRules (rules : List Rule) : List Rule :=
  rules.insertionSort (fun a b => effPriority b ≤ effPriority a)

/-- Destination returned for a matching rule:
`rule.event?.params?.destination || rule.defaultDestination || 'Unknown'`. -/
def matchedDestination (r : Rule) : String :=
  jsOrS ((r.event.bind (·.params)).bind (·.destination))
    (jsOrS r.defaultDestination "Unknown")

/-- Result of `evaluate`. -/
structure EvalOutput where
  destination : String
  matchedRules : List String
  evaluationSteps : List RuleEvaluationResult
deriving Repr

/-- The rule loop of `evaluate`: record each step; on the first passing rule
return its destination (earlier rules all failed, so `matchedRules` is the
singleton of its name); otherwise signal no match with the full trace. -/
def evalLoop (rt : String → String → Bool) (reg : Registry) (input : Input) :
    List Rule → List RuleEvaluationResult →
    Sum EvalOutput (List RuleEvaluationResult)
  | [], steps => .inr steps
  | r :: rest, steps =>
    let ev := evaluateRule rt reg r input
    let steps' := steps ++ [ev]
    if ev.passed then
      .inl { destination := matchedDestination r, matchedRules := [r.name],
             evaluationSteps := steps' }
    else evalLoop rt reg input rest steps'

/-- `RuleEngineSimulator.evaluate`: sort by priority descending (stable),
evaluate in order, short-circuit on the first match; otherwise fall back to
`sortedRules[sortedRules.length - 1]?.defaultDestination || 'Unknown'`. -/
def evaluate (rt : String → String → Bool) (reg : Registry)
    (rules : List Rule) (input : Input) : EvalOutput :=
  match evalLoop rt reg input (sortRules rules) [] with
  | .inl out => out
  | .inr steps =>
    { destination :=
        match (sortRules rules).getLast? with
        | some lowest => jsOrS lowest.defaultDestination "Unknown"
        | none => "Unknown",
      matchedRules := [], evaluationSteps := steps }

/-! ## Structural validation (`validateRuleStructure`, editor `validateRule`) -/

/-- Rules configuration envelope; `rules = none` embeds a missing or
non-array `rules` field. -/
structure RulesConfig where
  rules : Option (List Rule) := none
deriving Repr

/-- Validation result of `validateRuleStructure`. -/
structure StructureResult where
  isValid : Bool
  errors : List String
deriving Repr, DecidableEq

mutual
/-- `validateConditionStructure` (recursive condition shape check).  In the
model a condition is always an object and a `fact` leaf always carries a
`value` key (possibly `undefined`), so the non-object guard and the
`hasOwnProperty('value')` check never fire. -/
def validateConditionStructure : Condition → String → List String
  | .all cs, path => validateCondChildren cs (path ++ ".all") 0
  | .any cs, path => validateCondChildren cs (path ++ ".any") 0
  | .not c, path => validateConditionStructure c (path ++ ".not")
  | .fact f _ o _, path =>
    if truthy f then
      if truthy o then [] else [path ++ ": Missing operator for fact condition"]
    else
      [path ++ ": Invalid condition - must have 'all', 'any', 'not', 'fact', or 'condition'"]
  | .ref n, path =>
    if truthy n then []
    else
      [path ++ ": Invalid condition - must have 'all', 'any', 'not', 'fact', or 'condition'"]

def validateCondChildren (cs : List Condition) (pathPrefix : String)
    (idx : Nat) : List String :=
  match cs with
  | [] => []
  | c :: rest =>
    validateConditionStructure c (pathPrefix ++ "[" ++ toString idx ++ "]") ++
      validateCondChildren rest pathPrefix (idx + 1)
end

/-- Per-rule checks of `validateRuleStructure`. -/
def validateOneRule (rule : Rule) (index : Nat) : List String :=
  let rulePrefix := "Rule " ++ toString (index + 1) ++
    (if rule.name ≠ "" then " (" ++ rule.name ++ ")" else "")
  (if rule.name = "" then [rulePrefix ++ ": Missing required field 'name'"] else []) ++
  (if rule.priority.isNone then [rulePrefix ++ ": Priority must be a number"] else []) ++
  (if truthyS rule.defaultDestination then []
   else [rulePrefix ++ ": Missing required field 'defaultDestination'"]) ++
  (match rule.conditions with
   | none => [rulePrefix ++ ": Missing required field 'conditions'"]
   | some c => validateConditionStructure c (rulePrefix ++ " conditions")) ++
  (match rule.event with
   | none => [rulePrefix ++ ": Missing required field 'event'"]
   | some ev =>
     (if truthyS ev.ty then [] else [rulePrefix ++ ": Missing event.type"]) ++
     (if truthyS (ev.params.bind (·.destination)) then []
      else [rulePrefix ++ ": Missing event.params.destination"]))

def validateRulesLoop : List Rule → Nat → List String
  | [], _ => []
  | r :: rest, index => validateOneRule r index ++ validateRulesLoop rest (index + 1)

/-- `validateRuleStructure` on a rules configuration. -/
def validateRuleStructure (cfg : RulesConfig) : StructureResult :=
  match cfg.rules with
  | none => { isValid := false,
              errors := ["Missing or invalid field: rules (must be an array)"] }
  | some [] => { isValid := false,
                 errors := ["Rules array cannot be empty - at least one rule is required"] }
  | some rules =>
    let errors := validateRulesLoop rules 0
    { isValid := errors.isEmpty, errors := errors }

/-- Validation result of the visual editor (`ValidationResult`). -/
structure ValidationResult where
  isValid : Bool
  errors : List String
  warnings : List String
deriving Repr, DecidableEq

/-- The visual editor's `validateRule` (whole-rule check).  In the model a
present `conditions` object has at least one key, so the
`Object.keys(...).length === 0` clause reduces to the presence check; no
branch of this function pushes warnings. -/
def validateRule (rule : Rule) : ValidationResult :=
  let errors :=
    (if rule.name = "" || jsTrim rule.name = "" then ["Rule name is required"] else []) ++
    (match rule.priority with
     | none => ["Rule priority must be a number between 1 and 999"]
     | some p =>
       if p < 1 || p > 999 then ["Rule priority must be a number between 1 and 999"]
       else []) ++
    (match rule.defaultDestination with
     | none => ["Rule default destination is required (field is missing or null)"]
     | some d =>
       if jsTrim d = "" then
         ["Rule default destination cannot be empty or whitespace only"]
       else []) ++
    (if rule.conditions.isNone then ["Rule must have at least one condition"] else []) ++
    (match rule.event with
     | none => ["Rule must have an event"]
     | some ev =>
       (if truthyS ev.ty then [] else ["Event type is required"]) ++
       (if truthyS (ev.params.bind (·.destination)) then []
        else ["Event destination is required"]))
  { isValid := errors.isEmpty, errors := errors, warnings := [] }

/-! ## Graph projection: nodes, edges, `ruleToFlow` -/

/-- Data payload of a flow node (union of the editor's node data shapes;
absent JS fields are `none`/`undef`).  `dtype` embeds `data.type` of
logical-operator nodes. -/
structure NodeData where
  name : Option String := none
  priority : Option Int := none
  descr : Option String := none
  defaultDestination : Option String := none
  dtype : Value := .undef
  parentId : Option String := none
  fact : Value := .undef
  oper : Value := .undef
  value : Value := .undef
  params : Option Params := none
  destination : Option String := none
  evPriority : Option String := none
  reason : Option String := none

/-- A React Flow node; `ntype` embeds the JS field `type`. -/
structure FlowNode where
  id : String
  ntype : String
  data : NodeData
  position : Pos

/-- A React Flow edge. -/
structure FlowEdge where
  id : String
  source : String
  target : String
deriving DecidableEq

/-- Generated node id `node-${counter}`. -/
def nodeIdStr (k : Nat) : String := "node-" ++ Nat.repr k

/-- Saved position lookup `rule.layout?.nodes?.[nodeId]`. -/
def layoutLookup (layout : Option RuleLayout) (nodeId : String) : Option Pos :=
  (layout.bind (·.nodes)).bind fun l => (l.find? (fun p => p.1 = nodeId)).map (·.2)

/-- `calculatePosition` (centerX 400, node width 280, spacing 330,
vertical spacing 200); all divisions are exact. -/
def calculatePosition (level idx total : Int) (nodeType : String) : Pos :=
  if nodeType = "header" then ⟨260, 50⟩
  else if nodeType = "event" then ⟨260, 200 + level * 200⟩
  else if total = 1 then ⟨260, 200 + level * 200⟩
  else ⟨260 - 165 * (total - 1) + idx * 330, 200 + level * 200⟩

mutual
/-- Structural weight of a condition, used as the termination measure of
the projection functions. -/
def condW : Condition → Nat
  | .all cs => 2 + condLW cs
  | .any cs => 2 + condLW cs
  | .not c => 3 + condW c
  | .fact _ _ _ _ => 1
  | .ref _ => 1

def condLW : List Condition → Nat
  | [] => 0
  | c :: rest => 1 + condW c + condLW rest
end

/-- Mutable projection state of `ruleToFlow` (id counter, node and edge
arrays). -/
structure FlowState where
  counter : Nat
  nodes : List FlowNode
  edges : List FlowEdge

/-- The edge `${parentId}-${nodeId}` pushed by `processCondition`. -/
def condEdge (parentId nodeId : String) : FlowEdge :=
  { id := parentId ++ "-" ++ nodeId, source := parentId, target := nodeId }

/-- Push the logical-operator node (and its parent edge, when a parent
exists) onto the projection state. -/
def pushLogicalNode (ty : String) (nodeId : String) (parentId : Option String)
    (pos : Pos) (st1 : FlowState) : FlowState :=
  let node : FlowNode :=
    { id := nodeId, ntype := "logicalOperator",
      data := { dtype := .str ty, parentId := parentId }, position := pos }
  { st1 with nodes := st1.nodes ++ [node],
             edges := st1.edges ++
               (match parentId with
                | some pid => [condEdge pid nodeId]
                | none => []) }

mutual
/-- `processCondition` : depth-first projection of a condition to nodes and
edges.  A leaf whose `fact`/`condition` field is falsy consumes a counter
value but creates no node or edge (the source's `else if` guard).  A `not`
node's single child list `[condition.not]` is processed directly (index 0,
total 1), exactly as the source's loop over that one-element list does. -/
def processCondition (layout : Option RuleLayout) (c : Condition)
    (parentId : Option String) (level idx total : Int) (st : FlowState) :
    String × FlowState :=
  let nodeId := nodeIdStr st.counter
  let st1 : FlowState := { st with counter := st.counter + 1 }
  let pos := (layoutLookup layout nodeId).getD
    (calculatePosition level idx total "condition")
  match c with
  | .all cs =>
    (nodeId, processChildren layout cs nodeId (level + 1) 0 (cs.length : Int)
      (pushLogicalNode "all" nodeId parentId pos st1))
  | .any cs =>
    (nodeId, processChildren layout cs nodeId (level + 1) 0 (cs.length : Int)
      (pushLogicalNode "any" nodeId parentId pos st1))
  | .not c1 =>
    (nodeId, (processCondition layout c1 (some nodeId) (level + 1) 0 1
      (pushLogicalNode "not" nodeId parentId pos st1)).2)
  | .fact f p o v =>
    if truthy f then
      let node : FlowNode :=
        { id := nodeId, ntype := "factCondition",
          data := { fact := f,
                    oper := if truthy o then o else .str "reference",
                    value := if truthy v then v else .undef,
                    params := p, parentId := parentId },
          position := pos }
      (nodeId,
        { st1 with nodes := st1.nodes ++ [node],
                   edges := st1.edges ++
                     (match parentId with
                      | some pid => [condEdge pid nodeId]
                      | none => []) })
    else (nodeId, st1)
  | .ref n =>
    if truthy n then
      let node : FlowNode :=
        { id := nodeId, ntype := "factCondition",
          data := { fact := .str "condition", oper := .str "reference",
                    value := n, params := none, parentId := parentId },
          position := pos }
      (nodeId,
        { st1 with nodes := st1.nodes ++ [node],
                   edges := st1.edges ++
                     (match parentId with
                      | some pid => [condEdge pid nodeId]
                      | none => []) })
    else (nodeId, st1)

def processChildren (layout : Option RuleLayout) (cs : List Condition)
    (parentNodeId : String) (level idx total : Int) (st : FlowState) :
    FlowState :=
  match cs with
  | [] => st
  | c :: rest =>
    let st' := (processCondition layout c (some parentNodeId) level idx total st).2
    processChildren layout rest parentNodeId level (idx + 1) total st'
end

/-- `ruleToFlow` : project a rule to nodes and edges.  The unconditional
access `rule.event.params.destination` throws when `event`/`params` is
missing (modelled as an error). -/
def ruleToFlow (rule : Rule) : Except String (List FlowNode × List FlowEdge) :=
  match rule.event with
  | none => .error "TypeError: cannot read properties of undefined"
  | some ev =>
    match ev.params with
    | none => .error "TypeError: cannot read properties of undefined"
    | some evp =>
      let headerNode : FlowNode :=
        { id := "rule-header", ntype := "ruleHeader",
          data := { name := some rule.name, priority := rule.priority,
                    descr := rule.descr,
                    defaultDestination := rule.defaultDestination },
          position := (layoutLookup rule.layout "rule-header").getD
            (calculatePosition 0 0 1 "header") }
      let st0 : FlowState := { counter := 0, nodes := [headerNode], edges := [] }
      let (mainConditionId, st1) :=
        match rule.conditions with
        | some c =>
          let (cid, st') := processCondition rule.layout c (some "rule-header") 1 0 1 st0
          (some cid, st')
        | none => (none, st0)
      let eventNode : FlowNode :=
        { id := "event-node", ntype := "eventNode",
          data := { destination := evp.destination, evPriority := evp.priority,
                    reason := evp.reason },
          position := (layoutLookup rule.layout "event-node").getD
            (calculatePosition 0 0 1 "event") }
      let lastConditionNode := mainConditionId.getD "rule-header"
      .ok (st1.nodes ++ [eventNode],
           st1.edges ++ [condEdge lastConditionNode "event-node"])

/-! ## Graph reconstruction: `flowToRule` -/

/-- `nodes.find(n => n.id === id)`. -/
def findNode (nodes : List FlowNode) (id : String) : Option FlowNode :=
  nodes.find? (fun n => n.id = id)

/-- Adjacency-map lookup built from the edge list (targets of the edges
with the given source, in edge order). -/
def adjTargets (edges : List FlowEdge) (src : String) : List String :=
  (edges.filter (fun e => e.source = src)).map (·.target)

/-- `buildCondition` : recursive reconstruction of a condition from a node
id.  The source recursion is unbounded; the embedding carries explicit
fuel, and `flowToRule` supplies enough fuel for any acyclic graph. -/
def buildCondition (nodes : List FlowNode) (edges : List FlowEdge) :
    Nat → String → Option Condition
  | 0, _ => none
  | fuel + 1, nodeId =>
    match findNode nodes nodeId with
    | none => none
    | some node =>
      if node.ntype = "eventNode" then none
      else if node.ntype = "factCondition" then
        if isStr node.data.fact "condition" && isStr node.data.oper "reference" then
          some (.ref node.data.value)
        else
          some (.fact node.data.fact
            (match node.data.params with
             | some ps => if ps.length > 0 then some ps else none
             | none => none)
            node.data.oper node.data.value)
      else if node.ntype = "logicalOperator" then
        let childIds := adjTargets edges nodeId
        let childConditions :=
          (childIds.filter (fun i =>
            match findNode nodes i with
            | some cn => cn.ntype ≠ "eventNode"
            | none => false)).filterMap (fun i => buildCondition nodes edges fuel i)
        if childConditions.length = 0 then none
        else if isStr node.data.dtype "all" then some (.all childConditions)
        else if isStr node.data.dtype "any" then some (.any childConditions)
        else if isStr node.data.dtype "not" then
          match childConditions with
          | c :: _ => some (.not c)
          | [] => none
        else none
      else none

/-- The root-condition search of `flowToRule`: first target of
`rule-header` that exists and is not the event node. -/
def rootConditionId (nodes : List FlowNode) (edges : List FlowEdge) :
    Option String :=
  (adjTargets edges "rule-header").find? (fun i =>
    match findNode nodes i with
    | some n => n.ntype ≠ "eventNode"
    | none => false)

/-- `a || b` on two optional strings (`b` returned as-is when `a` falsy). -/
def jsOrOS (a b : Option String) : Option String :=
  if truthyS a then a else b

/-- `a || b` on two optional numbers (`0` is falsy). -/
def jsOrOI (a b : Option Int) : Option Int :=
  match a with
  | some p => if p = 0 then b else some p
  | none => b

/-- Spread `...(x && { f: x })` : keep only truthy values. -/
def keepTruthy (a : Option String) : Option String :=
  if truthyS a then a else none

/-- `flowToRule` : reconstruct a rule from nodes and edges; structural
faults are thrown (modelled as errors). -/
def flowToRule (nodes : List FlowNode) (edges : List FlowEdge)
    (originalRule : Rule) : Except String Rule :=
  match nodes.find? (fun n => n.ntype = "ruleHeader"),
        nodes.find? (fun n => n.ntype = "eventNode") with
  | some headerNode, some eventNode =>
    match rootConditionId nodes edges with
    | none => .error "No root condition found"
    | some rootId =>
      match buildCondition nodes edges (nodes.length + 1) rootId with
      | none => .error "Failed to build conditions from flow"
      | some conditions =>
        match originalRule.event with
        | none => .error "TypeError: cannot read properties of undefined"
        | some origEv =>
          .ok { name := jsOrS headerNode.data.name originalRule.name,
                descr := headerNode.data.descr,
                priority := jsOrOI headerNode.data.priority originalRule.priority,
                defaultDestination :=
                  jsOrOS headerNode.data.defaultDestination
                    originalRule.defaultDestination,
                conditions := some conditions,
                event := some
                  { ty := some (jsOrS origEv.ty "route_determined"),
                    params := some
                      { destination := eventNode.data.destination,
                        priority := keepTruthy eventNode.data.evPriority,
                        reason := keepTruthy eventNode.data.reason } },
                layout := some
                  { nodes := some (nodes.map (fun n => (n.id, n.position))) } }
  | _, _ => .error "Invalid flow structure: missing required nodes"

/-! ## Graph validation: `validateFlow` -/

mutual
/-- The cycle DFS (`hasCycle`) with its shared `visited` set threaded and
the recursion stack passed down.  The source recursion is unbounded; here
every call consumes one unit of fuel (keeping the recursion structural, so
concrete runs compute), exhaustion returns `false`, and the completeness
theorem below shows that at the fuel `validateFlow` supplies a reachable
cycle still yields `true`. -/
def dfsNode (out : String → List String) :
    Nat → String → List String → List String → Bool × List String
  | 0, _, visited, _ => (false, visited)
  | fuel + 1, u, visited, stack =>
    dfsChildren out fuel (out u) (u :: visited) (u :: stack)

def dfsChildren (out : String → List String) :
    Nat → List String → List String → List String → Bool × List String
  | 0, _, visited, _ => (false, visited)
  | _ + 1, [], visited, _ => (false, visited)
  | fuel + 1, c :: cs, visited, stack =>
    if c ∈ visited then
      if c ∈ stack then (true, visited)
      else dfsChildren out fuel cs visited stack
    else
      match dfsNode out fuel c visited stack with
      | (true, v') => (true, v')
      | (false, v') => dfsChildren out fuel cs v' stack
end

mutual
/-- The spec's structural well-formedness of a condition tree
(`validateConditionShape`): populated (truthy) discriminating field and
non-empty `all`/`any` child lists. -/
def wfShape : Condition → Bool
  | .all cs => !cs.isEmpty && wfShapeL cs
  | .any cs => !cs.isEmpty && wfShapeL cs
  | .not c => wfShape c
  | .fact f _ _ _ => truthy f
  | .ref n => truthy n

def wfShapeL : List Condition → Bool
  | [] => true
  | c :: rest => wfShape c && wfShapeL rest
end

mutual
/-- Every fact leaf carries a truthy value or `undefined` (the extra
hypothesis forced by the projection's `value || condition.condition`
rewriting, which turns other falsy leaf values into `undefined`). -/
def leafValuesOK : Condition → Bool
  | .all cs => leafValuesOKL cs
  | .any cs => leafValuesOKL cs
  | .not c => leafValuesOK c
  | .fact _ _ _ v => truthy v || (match v with | .undef => true | _ => false)
  | .ref _ => true

def leafValuesOKL : List Condition → Bool
  | [] => true
  | c :: rest => leafValuesOK c && leafValuesOKL rest
end

/-- Drop empty params objects, as `flowToRule` does
(`Object.keys(params).length > 0`). -/
def normParams : Option Params → Option Params
  | some ps => if ps.length > 0 then some ps else none
  | none => none

mutual
/-- The exact image of a condition tree under projection followed by
reconstruction (`flowToRule ∘ ruleToFlow`), for well-formed trees: child
lists map pointwise; a fact leaf has falsy `operator`/`value` rewritten by
the projection's `||` defaults, and leaves shaped like condition
references come back as references. -/
def recon : Condition → Condition
  | .all cs => .all (reconL cs)
  | .any cs => .any (reconL cs)
  | .not c => .not (recon c)
  | .fact f p o v =>
    let o' := if truthy o then o else .str "reference"
    let v' := if truthy v then v else .undef
    if isStr f "condition" && isStr o' "reference" then .ref v'
    else .fact f (normParams p) o' v'
  | .ref n => .ref n

def reconL : List Condition → List Condition
  | [] => []
  | c :: rest => recon c :: reconL rest
end

mutual
/-- Counter values consumed by `processCondition` on a subtree (every
subcondition consumes exactly one, created or not). -/
def genSize : Condition → Nat
  | .all cs => 1 + genSizeL cs
  | .any cs => 1 + genSizeL cs
  | .not c => 1 + genSize c
  | .fact _ _ _ _ => 1
  | .ref _ => 1

def genSizeL : List Condition → Nat
  | [] => 0
  | c :: rest => genSize c + genSizeL rest
end

/-- The logical-operator node created at counter `k`. -/
def mkLogicalNode (layout : Option RuleLayout) (ty : String)
    (parentId : Option String) (level idx total : Int) (k : Nat) : FlowNode :=
  { id := nodeIdStr k, ntype := "logicalOperator",
    data := { dtype := .str ty, parentId := parentId },
    position := (layoutLookup layout (nodeIdStr k)).getD
      (calculatePosition level idx total "condition") }

/-- The fact-condition node created at counter `k` for a fact leaf. -/
def mkFactNode (layout : Option RuleLayout) (f : Value) (p : Option Params)
    (o v : Value) (parentId : Option String) (level idx total : Int)
    (k : Nat) : FlowNode :=
  { id := nodeIdStr k, ntype := "factCondition",
    data := { fact := f, oper := if truthy o then o else .str "reference",
              value := if truthy v then v else .undef,
              params := p, parentId := parentId },
    position := (layoutLookup layout (nodeIdStr k)).getD
      (calculatePosition level idx total "condition") }

/-- The fact-condition node created at counter `k` for a reference leaf. -/
def mkRefNode (layout : Option RuleLayout) (n : Value)
    (parentId : Option String) (level idx total : Int) (k : Nat) : FlowNode :=
  { id := nodeIdStr k, ntype := "factCondition",
    data := { fact := .str "condition", oper := .str "reference",
              value := n, params := none, parentId := parentId },
    position := (layoutLookup layout (nodeIdStr k)).getD
      (calculatePosition level idx total "condition") }

/-- The edge to the parent, when one exists. -/
def parentEdge (parentId : Option String) (k : Nat) : List FlowEdge :=
  match parentId with
  | some pid => [condEdge pid (nodeIdStr k)]
  | none => []

mutual
/-- Pure form of the nodes appended by `processCondition` starting at
counter `k` (proved equal to the stateful run below). -/
def genNodes (layout : Option RuleLayout) :
    Condition → Option String → Int → Int → Int → Nat → List FlowNode
  | .all cs, parent, level, idx, total, k =>
    mkLogicalNode layout "all" parent level idx total k ::
      genNodesL layout cs (nodeIdStr k) (level + 1) 0 (cs.length : Int) (k + 1)
  | .any cs, parent, level, idx, total, k =>
    mkLogicalNode layout "any" parent level idx total k ::
      genNodesL layout cs (nodeIdStr k) (level + 1) 0 (cs.length : Int) (k + 1)
  | .not c, parent, level, idx, total, k =>
    mkLogicalNode layout "not" parent level idx total k ::
      genNodes layout c (some (nodeIdStr k)) (level + 1) 0 1 (k + 1)
  | .fact f p o v, parent, level, idx, total, k =>
    if truthy f then [mkFactNode layout f p o v parent level idx total k] else []
  | .ref n, parent, level, idx, total, k =>
    if truthy n then [mkRefNode layout n parent level idx total k] else []

def genNodesL (layout : Option RuleLayout) :
    List Condition → String → Int → Int → Int → Nat → List FlowNode
  | [], _, _, _, _, _ => []
  | c :: rest, p, level, idx, total, k =>
    genNodes layout c (some p) level idx total k ++
      genNodesL layout rest p level (idx + 1) total (k + genSize c)
end

mutual
/-- Pure form of the edges appended by `processCondition` starting at
counter `k`. -/
def genEdges (layout : Option RuleLayout) :
    Condition → Option String → Int → Int → Int → Nat → List FlowEdge
  | .all cs, parent, level, _, _, k =>
    parentEdge parent k ++
      genEdgesL layout cs (nodeIdStr k) (level + 1) 0 (cs.length : Int) (k + 1)
  | .any cs, parent, level, _, _, k =>
    parentEdge parent k ++
      genEdgesL layout cs (nodeIdStr k) (level + 1) 0 (cs.length : Int) (k + 1)
  | .not c, parent, level, _, _, k =>
    parentEdge parent k ++
      genEdges layout c (some (nodeIdStr k)) (level + 1) 0 1 (k + 1)
  | .fact f _ _ _, parent, _, _, _, k =>
    if truthy f then parentEdge parent k else []
  | .ref n, parent, _, _, _, k =>
    if truthy n then parentEdge parent k else []

def genEdgesL (layout : Option RuleLayout) :
    List Condition → String → Int → Int → Int → Nat → List FlowEdge
  | [], _, _, _, _, _ => []
  | c :: rest, p, level, idx, total, k =>
    genEdges layout c (some p) level idx total k ++
      genEdgesL layout rest p level (idx + 1) total (k + genSize c)
end

/-! ## Spec-side fact-resolution order (for the resolution-order claim) -/

/-- The fact-resolution order as the spec states it: (a) a registered
dynamic fact by name, invoked with its params and the full input map;
(b) the synthetic `inputValue` fact, reading `params.key` out of the input
map; (c) a direct lookup of the fact name in the input map. -/
def resolveActualSpec (reg : Registry) (factName : Value)
    (params : Option Params) (input : Input) : Except String Value :=
  let keyV := getProp (params.getD []) "key"
  match factName with
  | .str s =>
    match reg s with
    | some f => f (params.getD []) input
    | none =>
      if s = "inputValue" && truthy keyV then
        getInputProp input (toStringJS keyV)
      else getInputProp input s
  | v => getInputProp input (toStringJS v)

/-! ## Concrete fixtures for witnesses and counterexamples -/

/-- A regex engine that matches nothing (any engine works for the
guard theorems). -/
def regexNever : String → String → Bool := fun _ _ => false

def clock0 : Clock := ⟨2, 10, 1000⟩

def condNeverTrue : Condition := .fact (.str "x") none (.str "equal") (.num 99)

def condXIsOne : Condition := .fact (.str "x") none (.str "equal") (.num 1)

def inputX1 : Input := some [("x", .num 1)]

def ruleHighA : Rule :=
  { name := "A", priority := some 80, defaultDestination := some "A",
    conditions := some condNeverTrue,
    event := some ⟨some "route_determined", some ⟨some "EA", none, none⟩⟩ }

def ruleLowB : Rule :=
  { name := "B", priority := some 20, defaultDestination := some "B",
    conditions := some condNeverTrue,
    event := some ⟨some "route_determined", some ⟨some "EB", none, none⟩⟩ }

def ruleMidC : Rule :=
  { name := "C", priority := some 50, defaultDestination := some "C",
    conditions := some condXIsOne,
    event := some ⟨some "route_determined", some ⟨some "EC", none, none⟩⟩ }

/-- A matching rule with an empty (falsy) event destination. -/
def ruleEmptyDest : Rule :=
  { name := "C2", priority := some 50, defaultDestination := some "C2d",
    conditions := some condXIsOne,
    event := some ⟨some "route_determined", some ⟨some "", none, none⟩⟩ }

/-- A rule whose condition tree is an empty `all` (for the validator
claims). -/
def ruleEmptyAll : Rule :=
  { name := "r1", priority := some 10, defaultDestination := some "D",
    conditions := some (.all []),
    event := some ⟨some "route_determined", some ⟨some "X", none, none⟩⟩ }

/-- A rule that throws during evaluation when the input is `null`. -/
def ruleThrowing : Rule :=
  { name := "boom", priority := some 5, defaultDestination := some "DD",
    conditions := some condXIsOne,
    event := some ⟨some "route_determined", some ⟨some "EX", none, none⟩⟩ }

/-! ## Graph fixtures (nested / root `not` nodes, cycles) -/

def headerN : FlowNode :=
  { id := "rule-header", ntype := "ruleHeader", data := {}, position := ⟨0, 0⟩ }

def eventN : FlowNode :=
  { id := "event-node", ntype := "eventNode",
    data := { destination := some "D" }, position := ⟨0, 0⟩ }

def allN1 : FlowNode :=
  { id := "a1", ntype := "logicalOperator", data := { dtype := .str "all" },
    position := ⟨0, 0⟩ }

def notN : FlowNode :=
  { id := "n2", ntype := "logicalOperator", data := { dtype := .str "not" },
    position := ⟨0, 0⟩ }

def emptyAllN : FlowNode :=
  { id := "a2", ntype := "logicalOperator", data := { dtype := .str "all" },
    position := ⟨0, 0⟩ }

def factN : FlowNode :=
  { id := "f1", ntype := "factCondition",
    data := { fact := .str "x", oper := .str "equal", value := .num 1 },
    position := ⟨0, 0⟩ }

/-- Graph with a *nested* `not` node (`n2`) whose only child (`a2`, an
empty `all`) resolves to null. -/
def nestedNotNodes : List FlowNode :=
  [headerN, allN1, notN, emptyAllN, factN, eventN]

def nestedNotEdges : List FlowEdge :=
  [⟨"e1", "rule-header", "a1"⟩, ⟨"e2", "a1", "n2"⟩, ⟨"e3", "a1", "f1"⟩,
   ⟨"e4", "n2", "a2"⟩, ⟨"e5", "f1", "event-node"⟩]

/-- Graph whose *root* condition node is a `not` with no resolvable
children. -/
def rootNotN : FlowNode :=
  { id := "nr", ntype := "logicalOperator", data := { dtype := .str "not" },
    position := ⟨0, 0⟩ }

def rootNotNodes : List FlowNode := [headerN, rootNotN, emptyAllN, eventN]

def rootNotEdges : List FlowEdge :=
  [⟨"e1", "rule-header", "nr"⟩, ⟨"e2", "nr", "a2"⟩]


/-- Structural base-10 digit expansion of a natural number (most
significant digit first); equal to `Nat.toDigits 10` and used to reason
about the generated node ids `node-${counter}`. -/
def reprAux (n : Nat) : List Char :=
  if h : n / 10 = 0 then [Nat.digitChar (n % 10)]
  else reprAux (n / 10) ++ [Nat.digitChar (n % 10)]
termination_by n
decreasing_by
  exact Nat.div_lt_self (Nat.pos_of_ne_zero (fun h0 => h (by simp [h0]))) (by norm_num)

/-- The root node ids of a projected child list, given the counter value at
which the list starts (each child consumes `genSize` counter values). -/
def childRootsL : List Condition → Nat → List String
  | [], _ => []
  | c :: rest, k => nodeIdStr k :: childRootsL rest (k + genSize c)

/-- The adjacency row of a projected subtree's root node: the root ids of
its children. -/
def rootTargets : Condition → Nat → List String
  | .all cs, k => childRootsL cs (k + 1)
  | .any cs, k => childRootsL cs (k + 1)
  | .not _, k => [nodeIdStr (k + 1)]
  | .fact _ _ _ _, _ => []
  | .ref _, _ => []

/-- The header node pushed by `ruleToFlow`. -/
def hdrNode (rule : Rule) : FlowNode :=
  { id := "rule-header", ntype := "ruleHeader",
    data := { name := some rule.name, priority := rule.priority,
              descr := rule.descr,
              defaultDestination := rule.defaultDestination },
    position := (layoutLookup rule.layout "rule-header").getD
      (calculatePosition 0 0 1 "header") }

/-- The event node pushed by `ruleToFlow`. -/
def evNode (rule : Rule) (evp : EventParams) : FlowNode :=
  { id := "event-node", ntype := "eventNode",
    data := { destination := evp.destination, evPriority := evp.priority,
              reason := evp.reason },
    position := (layoutLookup rule.layout "event-node").getD
      (calculatePosition 0 0 1 "event") }

/-- The editor round trip: project a rule to a graph and reconstruct it. -/
def roundTripRule (r : Rule) : Except String Rule :=
  match ruleToFlow r with
  | .ok p => flowToRule p.1 p.2 r
  | .error e => .error e

/-- Round-trip counterexample rule: a fact leaf whose expected value is the
falsy number `0`. -/
def cexZeroRule : Rule :=
  { name := "t", priority := some 1, defaultDestination := some "D",
    conditions := some (.fact (.str "x") none (.str "equal") (.num 0)),
    event := some ⟨some "route_determined", some ⟨some "E", none, none⟩⟩ }

/-- A well-formed condition tree exercising `all`/`any`/`not`, params, and
a reference leaf. -/
def okTree : Condition :=
  .all [.fact (.str "x") (some [("key", .str "k")]) (.str "equal") (.num 1),
        .not (.ref (.str "other")),
        .any [.fact (.str "isBusinessHours") none (.str "equal") (.bool true)]]

def okRule : Rule :=
  { name := "ok", priority := some 5, defaultDestination := some "D",
    conditions := some okTree,
    event := some ⟨some "route_determined", some ⟨some "E", none, none⟩⟩ }

/-- The projected graph of `okRule`. -/
def okFlowPair : List FlowNode × List FlowEdge :=
  match ruleToFlow okRule with
  | .ok p => p
  | .error _ => ([], [])

/-! ## Helper lemmas: sorting and the evaluation loop -/

/-- The descending-priority comparison used by the sort. -/
def priGE (a b : Rule) : Prop := effPriority b ≤ effPriority a

instance : DecidableRel priGE := fun a b => by
  unfold priGE; infer_instance

theorem sortRules_perm (rules : List Rule) : List.Perm (sortRules rules) rules :=
  List.perm_insertionSort _ rules

theorem mem_sortRules {r : Rule} {rules : List Rule} :
    r ∈ sortRules rules ↔ r ∈ rules :=
  List.mem_insertionSort _

theorem sortRules_sorted (rules : List Rule) :
    List.Sorted (fun a b => effPriority b ≤ effPriority a) (sortRules rules) := by
  haveI : IsTotal Rule (fun a b => effPriority b ≤ effPriority a) :=
    ⟨fun a b => le_total _ _⟩
  haveI : IsTrans Rule (fun a b => effPriority b ≤ effPriority a) :=
    ⟨fun _ _ _ h1 h2 => le_trans h2 h1⟩
  exact List.sorted_insertionSort _ rules

theorem orderedInsert_filter_pri (p : Int) (x : Rule) (l : List Rule) :
    (List.orderedInsert (fun a b => effPriority b ≤ effPriority a) x l).filter
        (fun y => decide (effPriority y = p)) =
      if effPriority x = p then
        x :: l.filter (fun y => decide (effPriority y = p))
      else l.filter (fun y => decide (effPriority y = p)) := by
  induction l with
  | nil =>
    by_cases hx : effPriority x = p <;>
      simp [List.orderedInsert, List.filter, hx]
  | cons b t ih =>
    by_cases hxb : effPriority b ≤ effPriority x
    · rw [List.orderedInsert, if_pos hxb]
      by_cases hx : effPriority x = p <;>
        simp [List.filter_cons, hx]
    · rw [List.orderedInsert, if_neg hxb]
      by_cases hx : effPriority x = p
      · have hb : ¬(effPriority b = p) := by
          intro hcontra; exact hxb (le_of_eq (hcontra.trans hx.symm))
        simp [List.filter_cons, hb, ih, hx]
      · by_cases hb : effPriority b = p <;>
          simp [List.filter_cons, hb, ih, hx]

/-- Stability of `sortRules`: the rules at any fixed priority appear in
their original relative order. -/
theorem sortRules_filter_pri (p : Int) (rules : List Rule) :
    (sortRules rules).filter (fun y => decide (effPriority y = p)) =
      rules.filter (fun y => decide (effPriority y = p)) := by
  induction rules with
  | nil => rfl
  | cons r rs ih =>
    show (List.orderedInsert _ r (sortRules rs)).filter _ = _
    rw [orderedInsert_filter_pri]
    by_cases hr : effPriority r = p <;> simp [List.filter_cons, hr, ih]

theorem evalLoop_all_fail (rt : String → String → Bool) (reg : Registry)
    (input : Input) (rs : List Rule) (acc : List RuleEvaluationResult)
    (h : ∀ r ∈ rs, (evaluateRule rt reg r input).passed = false) :
    evalLoop rt reg input rs acc =
      .inr (acc ++ rs.map (fun r => evaluateRule rt reg r input)) := by
  induction rs generalizing acc with
  | nil => simp [evalLoop]
  | cons r rest ih =>
    have hr := h r (List.mem_cons_self r rest)
    rw [evalLoop]
    simp only [hr, if_neg (Bool.false_ne_true)]
    rw [ih _ (fun x hx => h x (List.mem_cons_of_mem r hx))]
    simp

theorem evalLoop_first_match (rt : String → String → Bool) (reg : Registry)
    (input : Input) (pre : List Rule) (r : Rule) (post : List Rule)
    (acc : List RuleEvaluationResult)
    (hpre : ∀ x ∈ pre, (evaluateRule rt reg x input).passed = false)
    (hr : (evaluateRule rt reg r input).passed = true) :
    evalLoop rt reg input (pre ++ r :: post) acc =
      .inl { destination := matchedDestination r, matchedRules := [r.name],
             evaluationSteps :=
               acc ++ (pre ++ [r]).map (fun x => evaluateRule rt reg x input) } := by
  induction pre generalizing acc with
  | nil =>
    rw [List.nil_append, evalLoop]
    simp [hr]
  | cons x xs ih =>
    have hx := hpre x (List.mem_cons_self x xs)
    rw [List.cons_append, evalLoop]
    simp only [hx, if_neg (Bool.false_ne_true)]
    rw [ih _ (fun y hy => hpre y (List.mem_cons_of_mem x hy))]
    simp

/-! ## Claim theorems: evaluation engine -/

/-- **C1.** For every rule set with at least one rule and every input, if
no rule's root condition evaluates to true, `evaluate` returns the
`defaultDestination` of the last rule in the priority-descending sorted
order (the lowest-priority rule) as the rule-set-wide fallback, with an
empty `matchedRules` list — including when only one rule exists (the
hypotheses do not restrict the length). -/
theorem evaluate_fallback_lowest_priority (rt : String → String → Bool)
    (clock : Clock) (rules : List Rule) (input : Input) (lowest : Rule)
    (d : String) (_hne : rules ≠ [])
    (hfail : ∀ r ∈ rules,
      (evaluateRule rt (builtinFacts clock) r input).passed = false)
    (hlast : (sortRules rules).getLast? = some lowest)
    (hd : lowest.defaultDestination = some d) (hdne : d ≠ "") :
    evaluate rt (builtinFacts clock) rules input =
      { destination := d, matchedRules := [],
        evaluationSteps := (sortRules rules).map
          (fun r => evaluateRule rt (builtinFacts clock) r input) } := by
  unfold evaluate
  rw [evalLoop_all_fail _ _ _ _ _ (fun r hr => hfail r (mem_sortRules.mp hr))]
  simp [hlast, jsOrS, hd, hdne]

theorem evaluate_fallback_lowest_priority_witness :
    [ruleHighA, ruleLowB] ≠ [] ∧
    evaluate regexNever (builtinFacts clock0) [ruleHighA, ruleLowB] inputX1 =
      { destination := "B", matchedRules := [],
        evaluationSteps := (sortRules [ruleHighA, ruleLowB]).map
          (fun r => evaluateRule regexNever (builtinFacts clock0) r inputX1) } :=
  ⟨by simp,
   evaluate_fallback_lowest_priority regexNever clock0 [ruleHighA, ruleLowB]
     inputX1 ruleLowB "B" (by simp) (by decide) rfl rfl (by decide)⟩

/-- **C3.** `evaluate` sorts by priority descending with a stable sort
(ties keep original relative order, stated through the per-priority filter
identity), evaluates in that order, returns the first matching rule's
destination without evaluating later rules, and the trace holds exactly
the rules evaluated up to and including the match. -/
theorem evaluate_priority_order_first_match (rt : String → String → Bool)
    (clock : Clock) (rules : List Rule) (input : Input)
    (pre : List Rule) (r : Rule) (post : List Rule)
    (hsplit : sortRules rules = pre ++ r :: post)
    (hpre : ∀ x ∈ pre,
      (evaluateRule rt (builtinFacts clock) x input).passed = false)
    (hr : (evaluateRule rt (builtinFacts clock) r input).passed = true) :
    List.Sorted (fun a b => effPriority b ≤ effPriority a) (sortRules rules) ∧
    List.Perm (sortRules rules) rules ∧
    (∀ p : Int, (sortRules rules).filter (fun y => decide (effPriority y = p)) =
        rules.filter (fun y => decide (effPriority y = p))) ∧
    evaluate rt (builtinFacts clock) rules input =
      { destination := matchedDestination r, matchedRules := [r.name],
        evaluationSteps := (pre ++ [r]).map
          (fun x => evaluateRule rt (builtinFacts clock) x input) } := by
  refine ⟨sortRules_sorted rules, sortRules_perm rules,
    fun p => sortRules_filter_pri p rules, ?_⟩
  unfold evaluate
  rw [hsplit, evalLoop_first_match _ _ _ _ _ _ _ hpre hr]
  simp

theorem evaluate_priority_order_first_match_witness :
    sortRules [ruleLowB, ruleMidC, ruleHighA] = [ruleHighA] ++ ruleMidC :: [ruleLowB] ∧
    evaluate regexNever (builtinFacts clock0) [ruleLowB, ruleMidC, ruleHighA] inputX1 =
      { destination := matchedDestination ruleMidC, matchedRules := [ruleMidC.name],
        evaluationSteps := ([ruleHighA] ++ [ruleMidC]).map
          (fun x => evaluateRule regexNever (builtinFacts clock0) x inputX1) } :=
  ⟨rfl,
   (evaluate_priority_order_first_match regexNever clock0
     [ruleLowB, ruleMidC, ruleHighA] inputX1 [ruleHighA] ruleMidC [ruleLowB]
     rfl (by decide) rfl).2.2.2⟩

/-- **C10.** When a rule matches, the destination returned by `evaluate`
is the first truthy value among the matched rule's
`event.params.destination`, its `defaultDestination`, and the literal
`'Unknown'` (so a matched rule with a missing or empty event destination
silently routes to its own default destination). -/
theorem matched_destination_truthy_chain (rt : String → String → Bool)
    (clock : Clock) (rules : List Rule) (input : Input)
    (pre : List Rule) (r : Rule) (post : List Rule)
    (hsplit : sortRules rules = pre ++ r :: post)
    (hpre : ∀ x ∈ pre,
      (evaluateRule rt (builtinFacts clock) x input).passed = false)
    (hr : (evaluateRule rt (builtinFacts clock) r input).passed = true) :
    (evaluate rt (builtinFacts clock) rules input).destination =
      jsOrS ((r.event.bind (·.params)).bind (·.destination))
        (jsOrS r.defaultDestination "Unknown") := by
  unfold evaluate
  rw [hsplit, evalLoop_first_match _ _ _ _ _ _ _ hpre hr]
  rfl

theorem matched_destination_truthy_chain_witness :
    (evaluate regexNever (builtinFacts clock0) [ruleEmptyDest] inputX1).destination =
      jsOrS ((ruleEmptyDest.event.bind (·.params)).bind (·.destination))
        (jsOrS ruleEmptyDest.defaultDestination "Unknown") ∧
    (evaluate regexNever (builtinFacts clock0) [ruleEmptyDest] inputX1).destination = "C2d" :=
  ⟨matched_destination_truthy_chain regexNever clock0 [ruleEmptyDest] inputX1
     [] ruleEmptyDest [] rfl (by decide) rfl,
   by decide⟩

/-- **C4.** Leaf fact resolution: the engine's resolver agrees, for the
simulator's fixed dynamic-fact registry, with the spec's stated order —
(a) registered dynamic fact, (b) the synthetic `inputValue` fact reading
`params.key`, (c) direct lookup of the fact name in the input map.  (The
source checks the `inputValue` shape first, but no dynamic fact is ever
registered under that name, so the two orders coincide.) -/
theorem resolveActual_spec_order (clock : Clock) (factName : Value)
    (params : Option Params) (input : Input) :
    (resolveActual (builtinFacts clock) factName params input).1 =
      resolveActualSpec (builtinFacts clock) factName params input := by
  cases factName with
  | str s =>
    by_cases hs : s = "inputValue"
    · subst hs
      have hreg : builtinFacts clock "inputValue" = none := rfl
      simp only [resolveActual, resolveActualSpec, hreg, isStr, valueEq]
      by_cases hk : truthy (getProp (params.getD []) "key") = true <;>
        simp [hk]
    · have h1 : isStr (.str s) "inputValue" = false := by
        simp [isStr, valueEq, hs]
      simp only [resolveActual, resolveActualSpec, h1, Bool.false_and,
        Bool.not_true, if_neg]
      cases hreg : builtinFacts clock s with
      | some f => simp
      | none => simp [hs]
  | num n => rfl
  | bool b => rfl
  | null => rfl
  | undef => rfl
  | arr l => rfl

/-- **C5.** `matchesPattern` returns false without consulting the regex
engine (the conclusion holds for *every* engine behaviour `rt`) whenever
the pattern exceeds 1000 characters or has a catastrophic-backtracking
shape — a nested quantifier, or alternation-with-repetition together with
a repeated character — and in particular the pattern `(a+)+` is rejected
for every actual value. -/
theorem matchesPattern_redos_guard (rt : String → String → Bool)
    (actual : Value) (e : String)
    (h : 1000 < e.length ∨ hasNestedQuant e.data = true ∨
        (hasAltRep e.data = true ∧ hasRepeat e.data = true)) :
    evaluateOperator rt actual (.str "matchesPattern") (.str e) = false ∧
    evaluateOperator rt actual (.str "matchesPattern") (.str "(a+)+") = false := by
  constructor
  · cases actual <;> try rfl
    case str a =>
      show (if 1000 < e.length then false
            else if hasNestedQuant e.data = true then false
            else if (hasAltRep e.data && hasRepeat e.data) = true then false
            else rt e a) = false
      rcases h with h1 | h2 | ⟨h3, h4⟩
      · rw [if_pos h1]
      · by_cases h1 : 1000 < e.length
        · rw [if_pos h1]
        · rw [if_neg h1, if_pos h2]
      · by_cases h1 : 1000 < e.length
        · rw [if_pos h1]
        · by_cases h2 : hasNestedQuant e.data = true
          · rw [if_neg h1, if_pos h2]
          · rw [if_neg h1, if_neg h2, if_pos (by rw [h3, h4]; rfl)]
  · cases actual <;> rfl

theorem matchesPattern_redos_guard_witness :
    (1000 < ("(a+)+" : String).length ∨ hasNestedQuant ("(a+)+" : String).data = true ∨
      (hasAltRep ("(a+)+" : String).data = true ∧ hasRepeat ("(a+)+" : String).data = true)) ∧
    evaluateOperator regexNever (.str "aaaa") (.str "matchesPattern") (.str "(a+)+") = false :=
  ⟨Or.inr (Or.inl (by decide)),
   (matchesPattern_redos_guard regexNever (.str "aaaa") "(a+)+"
     (Or.inr (Or.inl (by decide)))).1⟩

/-- **C6.** An exception thrown while evaluating a single rule's conditions
is caught by `evaluateRule`: the rule is recorded in the trace as not
matched (`passed = false`, keeping the checks recorded before the throw),
and the evaluation loop continues with the remaining rules — the error is
never propagated (`evaluateRule` and `evaluate` are total, returning plain
results). -/
theorem evaluateRule_exception_contained (rt : String → String → Bool)
    (reg : Registry) (r : Rule) (rest : List Rule) (input : Input)
    (acc : List RuleEvaluationResult) (c : Condition) (e : String)
    (tr : List ConditionResult)
    (hc : r.conditions = some c)
    (herr : evalConds rt reg c input = (.error e, tr)) :
    evaluateRule rt reg r input =
      { ruleName := r.name, passed := false, conditions := tr } ∧
    evalLoop rt reg input (r :: rest) acc =
      evalLoop rt reg input rest
        (acc ++ [{ ruleName := r.name, passed := false, conditions := tr }]) := by
  have h1 : evaluateRule rt reg r input =
      { ruleName := r.name, passed := false, conditions := tr } := by
    simp only [evaluateRule, hc, herr]
  refine ⟨h1, ?_⟩
  rw [evalLoop, h1]
  simp

theorem evaluateRule_exception_contained_witness :
    evaluateRule regexNever (builtinFacts clock0) ruleThrowing none =
      { ruleName := ruleThrowing.name, passed := false, conditions := [] } ∧
    evalLoop regexNever (builtinFacts clock0) none [ruleThrowing, ruleLowB] [] =
      evalLoop regexNever (builtinFacts clock0) none [ruleLowB]
        ([] ++ [{ ruleName := ruleThrowing.name, passed := false, conditions := [] }]) :=
  evaluateRule_exception_contained regexNever (builtinFacts clock0)
    ruleThrowing [ruleLowB] none [] condXIsOne
    "TypeError: cannot read properties of null" [] rfl rfl

/-- **C9 (counterexample).** The claim says validation rejects every rule
whose tree contains an `all`/`any` node with an empty child list; in fact
both validators accept such a rule: `validateRuleStructure` returns
`isValid = true` with no errors for a config whose only rule has
`conditions = { all: [] }`, and the editor's `validateRule` accepts the
rule as well. -/
theorem empty_all_accepted_cex :
    ruleEmptyAll.conditions = some (Condition.all []) ∧
    validateRuleStructure { rules := some [ruleEmptyAll] } =
      { isValid := true, errors := [] } ∧
    validateRule ruleEmptyAll = { isValid := true, errors := [], warnings := [] } :=
  ⟨rfl, rfl, rfl⟩

/-- **C9 (amended).** Neither validator reports anything for an empty
`all`/`any` child list (`validateConditionStructure` produces no error for
such a node), while the evaluation engine treats an empty `all` as
vacuously true (and an empty `any` as false). -/
theorem empty_all_not_rejected_and_vacuous (path : String)
    (rt : String → String → Bool) (reg : Registry) (input : Input) :
    validateConditionStructure (Condition.all []) path = [] ∧
    validateConditionStructure (Condition.any []) path = [] ∧
    evalConds rt reg (Condition.all []) input = (.ok true, []) ∧
    evalConds rt reg (Condition.any []) input = (.ok false, []) :=
  ⟨rfl, rfl, rfl, rfl⟩

/-! ## Claim theorems: graph reconstruction (`not` nodes) -/

/-- **C8 (counterexample).** The claim says a `not` node whose children all
resolve to null always surfaces an error; in fact a *nested* such node is
silently dropped: in `nestedNotNodes`/`nestedNotEdges` the `not` node `n2`
resolves to null (its only child is an empty `all`), yet `flowToRule`
succeeds and returns the rest of the rule with `n2` pruned. -/
theorem flowToRule_nested_not_pruned_cex :
    findNode nestedNotNodes "n2" = some notN ∧
    notN.ntype = "logicalOperator" ∧
    isStr notN.data.dtype "not" = true ∧
    buildCondition nestedNotNodes nestedNotEdges
      (nestedNotNodes.length + 1) "n2" = none ∧
    (flowToRule nestedNotNodes nestedNotEdges ruleLowB).map (·.conditions) =
      .ok (some (.all [.fact (.str "x") none (.str "equal") (.num 1)])) :=
  ⟨rfl, rfl, rfl, rfl, rfl⟩

/-- **C8 (amended).** There is no `not`-specific reconstruction error: a
`not` node whose children all resolve to null resolves to null, exactly
like any logical node with no resolvable children (the
`childConditions.length === 0` early exit precedes every type branch, and
the `not` branch has no error path).  Reconstruction surfaces the generic
error `Failed to build conditions from flow` when the *root* condition
node resolves to null; this theorem proves that whenever the root
condition node is a `not` logical node all of whose edge targets fail to
build.  A nested unresolvable `not`, by contrast, is not itself an error:
it can be silently pruned with reconstruction succeeding (the
counterexample), or its null can cascade upward and trigger the same
generic root error. -/
theorem flowToRule_root_not_unresolvable_error (nodes : List FlowNode)
    (edges : List FlowEdge) (orig : Rule) (h ev node : FlowNode)
    (rootId : String)
    (hh : nodes.find? (fun n => n.ntype = "ruleHeader") = some h)
    (he : nodes.find? (fun n => n.ntype = "eventNode") = some ev)
    (hroot : rootConditionId nodes edges = some rootId)
    (hnode : findNode nodes rootId = some node)
    (hty : node.ntype = "logicalOperator")
    (_hnot : isStr node.data.dtype "not" = true)
    (hchildren : ∀ i ∈ adjTargets edges rootId,
      buildCondition nodes edges nodes.length i = none) :
    flowToRule nodes edges orig =
      .error "Failed to build conditions from flow" := by
  have hempty : ∀ g : String → Bool,
      ((adjTargets edges rootId).filter g).filterMap
        (fun i => buildCondition nodes edges nodes.length i) = [] := by
    intro g
    rw [List.filterMap_eq_nil_iff]
    intro i hi
    exact hchildren i (List.mem_of_mem_filter hi)
  have hb : buildCondition nodes edges (nodes.length + 1) rootId = none := by
    rw [buildCondition, hnode]
    simp [hty, hempty]
  simp only [flowToRule, hh, he, hroot, hb]

theorem flowToRule_root_not_unresolvable_error_witness :
    flowToRule rootNotNodes rootNotEdges ruleLowB =
      .error "Failed to build conditions from flow" :=
  flowToRule_root_not_unresolvable_error rootNotNodes rootNotEdges ruleLowB
    headerN eventN rootNotN "nr" rfl rfl rfl rfl rfl rfl
    (by intro i hi
        have : i = "a2" := by
          have h2 : adjTargets rootNotEdges "nr" = ["a2"] := rfl
          rw [h2] at hi
          simpa using hi
        subst this
        rfl)

/-! ## DFS cycle-detection soundness (for the cycle claim) -/

/-- Simultaneous induction over a condition and a condition list (the
nested-inductive recursor packaged for `Prop` motives). -/
theorem condInd (P : Condition → Prop) (Q : List Condition → Prop)
    (h1 : ∀ cs, Q cs → P (.all cs)) (h2 : ∀ cs, Q cs → P (.any cs))
    (h3 : ∀ c, P c → P (.not c))
    (h4 : ∀ f p o v, P (.fact f p o v)) (h5 : ∀ n, P (.ref n))
    (h6 : Q []) (h7 : ∀ c cs, P c → Q cs → Q (c :: cs)) :
    (∀ c, P c) ∧ (∀ cs, Q cs) := by
  have main : ∀ c, P c := fun c => @Condition.rec P Q h1 h2 h3 h4 h5 h6 h7 c
  refine ⟨main, fun cs => ?_⟩
  induction cs with
  | nil => exact h6
  | cons c cs ih => exact h7 c cs (main c) ih

theorem toDigitsCore_eq_reprAux (fuel : Nat) :
    ∀ (n : Nat) (acc : List Char), n < fuel →
      Nat.toDigitsCore 10 fuel n acc = reprAux n ++ acc := by
  induction fuel with
  | zero => intro n acc h; omega
  | succ fuel ih =>
    intro n acc h
    have hstep : Nat.toDigitsCore 10 (fuel + 1) n acc =
        if n / 10 = 0 then Nat.digitChar (n % 10) :: acc
        else Nat.toDigitsCore 10 fuel (n / 10) (Nat.digitChar (n % 10) :: acc) := by
      show (if n / 10 = 0 then Nat.digitChar (n % 10) :: acc
        else Nat.toDigitsCore 10 fuel (n / 10) (Nat.digitChar (n % 10) :: acc)) = _
      rfl
    rw [hstep, reprAux]
    by_cases h0 : n / 10 = 0
    · rw [if_pos h0, dif_pos h0]
      rfl
    · rw [if_neg h0, dif_neg h0]
      have hlt : n / 10 < fuel := by
        have h1 : n / 10 < n := Nat.div_lt_self (by omega) (by norm_num)
        omega
      rw [ih (n / 10) (Nat.digitChar (n % 10) :: acc) hlt]
      simp

theorem repr_eq_reprAux (n : Nat) : Nat.repr n = ⟨reprAux n⟩ := by
  show (Nat.toDigits 10 n).asString = _
  rw [Nat.toDigits, toDigitsCore_eq_reprAux (n + 1) n [] (by omega),
    List.append_nil]
  rfl

theorem digitChar_inj :
    ∀ a, a < 10 → ∀ b, b < 10 → Nat.digitChar a = Nat.digitChar b → a = b := by
  decide

theorem reprAux_ne_nil (n : Nat) : reprAux n ≠ [] := by
  rw [reprAux]
  by_cases h0 : n / 10 = 0
  · rw [dif_pos h0]; simp
  · rw [dif_neg h0]; simp

theorem reprAux_eq (n : Nat) : reprAux n =
    if n / 10 = 0 then [Nat.digitChar (n % 10)]
    else reprAux (n / 10) ++ [Nat.digitChar (n % 10)] := by
  rw [reprAux]
  by_cases h : n / 10 = 0
  · rw [dif_pos h, if_pos h]
  · rw [dif_neg h, if_neg h]

theorem reprAux_inj : ∀ a b : Nat, reprAux a = reprAux b → a = b := by
  intro a
  induction a using Nat.strong_induction_on with
  | _ a ih =>
    intro b h
    rw [reprAux_eq a, reprAux_eq b] at h
    by_cases ha : a / 10 = 0 <;> by_cases hb : b / 10 = 0
    · rw [if_pos ha, if_pos hb] at h
      simp only [List.cons.injEq, and_true] at h
      have := digitChar_inj (a % 10) (by omega) (b % 10) (by omega) h
      omega
    · rw [if_pos ha, if_neg hb] at h
      have hl := congrArg List.length h
      simp only [List.length_append, List.length_cons, List.length_nil] at hl
      exact absurd (List.length_eq_zero.mp (by omega)) (reprAux_ne_nil (b / 10))
    · rw [if_neg ha, if_pos hb] at h
      have hl := congrArg List.length h
      simp only [List.length_append, List.length_cons, List.length_nil] at hl
      exact absurd (List.length_eq_zero.mp (by omega)) (reprAux_ne_nil (a / 10))
    · rw [if_neg ha, if_neg hb] at h
      have h2 := List.append_inj' h rfl
      have h3 := ih (a / 10) (Nat.div_lt_self (by omega) (by norm_num)) (b / 10) h2.1
      have h4 := digitChar_inj (a % 10) (by omega) (b % 10) (by omega)
        (by simpa using h2.2)
      omega

theorem nat_repr_inj {a b : Nat} (h : Nat.repr a = Nat.repr b) : a = b := by
  rw [repr_eq_reprAux, repr_eq_reprAux] at h
  exact reprAux_inj a b (congrArg String.data h)

theorem nodeIdStr_data (k : Nat) :
    (nodeIdStr k).data = 'n' :: 'o' :: 'd' :: 'e' :: '-' :: reprAux k := by
  rw [nodeIdStr, repr_eq_reprAux]
  rfl

theorem nodeIdStr_inj {a b : Nat} (h : nodeIdStr a = nodeIdStr b) : a = b := by
  have h2 := congrArg String.data h
  rw [nodeIdStr_data, nodeIdStr_data] at h2
  simp only [List.cons.injEq, true_and] at h2
  exact reprAux_inj a b h2

theorem nodeIdStr_ne (a b : Nat) (h : a ≠ b) : nodeIdStr a ≠ nodeIdStr b :=
  fun he => h (nodeIdStr_inj he)

theorem nodeIdStr_ne_header (k : Nat) : nodeIdStr k ≠ "rule-header" := by
  intro h
  have h2 := congrArg String.data h
  rw [nodeIdStr_data,
    show ("rule-header" : String).data =
      ['r', 'u', 'l', 'e', '-', 'h', 'e', 'a', 'd', 'e', 'r'] from rfl] at h2
  simp at h2

theorem nodeIdStr_ne_event (k : Nat) : nodeIdStr k ≠ "event-node" := by
  intro h
  have h2 := congrArg String.data h
  rw [nodeIdStr_data,
    show ("event-node" : String).data =
      ['e', 'v', 'e', 'n', 't', '-', 'n', 'o', 'd', 'e'] from rfl] at h2
  simp at h2

/-! ## Round-trip proof: list lookup helpers -/

theorem findNode_cons_self {n : FlowNode} {l : List FlowNode} {i : String}
    (h : n.id = i) : findNode (n :: l) i = some n := by
  rw [findNode, List.find?_cons_of_pos]
  simp [h]

theorem findNode_cons_ne {n : FlowNode} {l : List FlowNode} {i : String}
    (h : n.id ≠ i) : findNode (n :: l) i = findNode l i := by
  rw [findNode, List.find?_cons_of_neg]
  · rfl
  · simp [h]

theorem findNode_eq_none {l : List FlowNode} {i : String}
    (h : ∀ m ∈ l, m.id ≠ i) : findNode l i = none := by
  rw [findNode, List.find?_eq_none]
  intro m hm
  simp [h m hm]

theorem findNode_append_left {l1 l2 : List FlowNode} {i : String}
    {n : FlowNode} (h : findNode l1 i = some n) :
    findNode (l1 ++ l2) i = some n := by
  induction l1 with
  | nil => rw [findNode] at h; simp at h
  | cons a l ih =>
    by_cases ha : a.id = i
    · rw [findNode_cons_self ha] at h
      rw [List.cons_append, findNode_cons_self ha]
      exact h
    · rw [findNode_cons_ne ha] at h
      rw [List.cons_append, findNode_cons_ne ha]
      exact ih h

theorem findNode_append_right {l1 l2 : List FlowNode} {i : String}
    (h : ∀ m ∈ l1, m.id ≠ i) :
    findNode (l1 ++ l2) i = findNode l2 i := by
  induction l1 with
  | nil => rfl
  | cons a l ih =>
    rw [List.cons_append, findNode_cons_ne (h a (by simp))]
    exact ih (fun m hm => h m (by simp [hm]))

theorem adjTargets_append (l1 l2 : List FlowEdge) (s : String) :
    adjTargets (l1 ++ l2) s = adjTargets l1 s ++ adjTargets l2 s := by
  simp [adjTargets, List.filter_append]

theorem adjTargets_eq_nil {l : List FlowEdge} {s : String}
    (h : ∀ e ∈ l, e.source ≠ s) : adjTargets l s = [] := by
  rw [adjTargets, List.filter_eq_nil_iff.mpr, List.map_nil]
  intro e he
  simp [h e he]

theorem adjTargets_single_eq (e : FlowEdge) (h : e.source = s) :
    adjTargets [e] s = [e.target] := by
  simp [adjTargets, List.filter, h]

/-! ## Round-trip proof: the stateful projection equals the pure generators -/

theorem processCondition_spec_pair :
    (∀ c : Condition, ∀ (layout : Option RuleLayout) (parent : Option String)
      (level idx total : Int) (st : FlowState),
      processCondition layout c parent level idx total st =
        (nodeIdStr st.counter,
         { counter := st.counter + genSize c,
           nodes := st.nodes ++ genNodes layout c parent level idx total st.counter,
           edges := st.edges ++ genEdges layout c parent level idx total st.counter })) ∧
    (∀ cs : List Condition, ∀ (layout : Option RuleLayout) (p : String)
      (level idx total : Int) (st : FlowState),
      processChildren layout cs p level idx total st =
        { counter := st.counter + genSizeL cs,
          nodes := st.nodes ++ genNodesL layout cs p level idx total st.counter,
          edges := st.edges ++ genEdgesL layout cs p level idx total st.counter }) := by
  refine condInd _ _ ?_ ?_ ?_ ?_ ?_ ?_ ?_
  · intro cs ihl layout parent level idx total st
    have h1 : processCondition layout (.all cs) parent level idx total st =
        (nodeIdStr st.counter,
         processChildren layout cs (nodeIdStr st.counter) (level + 1) 0
           (cs.length : Int)
           (pushLogicalNode "all" (nodeIdStr st.counter) parent
             ((layoutLookup layout (nodeIdStr st.counter)).getD
               (calculatePosition level idx total "condition"))
             { st with counter := st.counter + 1 })) := rfl
    rw [h1, ihl]
    simp [pushLogicalNode, mkLogicalNode, parentEdge, genNodes, genEdges,
      genSize, List.append_assoc]
    omega
  · intro cs ihl layout parent level idx total st
    have h1 : processCondition layout (.any cs) parent level idx total st =
        (nodeIdStr st.counter,
         processChildren layout cs (nodeIdStr st.counter) (level + 1) 0
           (cs.length : Int)
           (pushLogicalNode "any" (nodeIdStr st.counter) parent
             ((layoutLookup layout (nodeIdStr st.counter)).getD
               (calculatePosition level idx total "condition"))
             { st with counter := st.counter + 1 })) := rfl
    rw [h1, ihl]
    simp [pushLogicalNode, mkLogicalNode, parentEdge, genNodes, genEdges,
      genSize, List.append_assoc]
    omega
  · intro c ihc layout parent level idx total st
    have h1 : processCondition layout (.not c) parent level idx total st =
        (nodeIdStr st.counter,
         (processCondition layout c (some (nodeIdStr st.counter)) (level + 1) 0 1
           (pushLogicalNode "not" (nodeIdStr st.counter) parent
             ((layoutLookup layout (nodeIdStr st.counter)).getD
               (calculatePosition level idx total "condition"))
             { st with counter := st.counter + 1 })).2) := rfl
    rw [h1, ihc]
    simp [pushLogicalNode, mkLogicalNode, parentEdge, genNodes, genEdges,
      genSize, List.append_assoc]
    omega
  · intro f p o v layout parent level idx total st
    by_cases hf : truthy f
    · have h1 : processCondition layout (.fact f p o v) parent level idx total st =
          (nodeIdStr st.counter,
           { counter := st.counter + 1,
             nodes := st.nodes ++
               [mkFactNode layout f p o v parent level idx total st.counter],
             edges := st.edges ++ parentEdge parent st.counter }) := by
        simp only [processCondition, if_pos hf]
        rfl
      rw [h1]
      simp [genNodes, genEdges, genSize, hf]
    · have h1 : processCondition layout (.fact f p o v) parent level idx total st =
          (nodeIdStr st.counter,
           { counter := st.counter + 1, nodes := st.nodes,
             edges := st.edges }) := by
        simp only [processCondition, if_neg hf]
      rw [h1]
      simp [genNodes, genEdges, genSize, hf]
  · intro n layout parent level idx total st
    by_cases hn : truthy n
    · have h1 : processCondition layout (.ref n) parent level idx total st =
          (nodeIdStr st.counter,
           { counter := st.counter + 1,
             nodes := st.nodes ++
               [mkRefNode layout n parent level idx total st.counter],
             edges := st.edges ++ parentEdge parent st.counter }) := by
        simp only [processCondition, if_pos hn]
        rfl
      rw [h1]
      simp [genNodes, genEdges, genSize, hn]
    · have h1 : processCondition layout (.ref n) parent level idx total st =
          (nodeIdStr st.counter,
           { counter := st.counter + 1, nodes := st.nodes,
             edges := st.edges }) := by
        simp only [processCondition, if_neg hn]
      rw [h1]
      simp [genNodes, genEdges, genSize, hn]
  · intro layout p level idx total st
    simp [processChildren, genNodesL, genEdgesL, genSizeL]
  · intro c cs ihc ihl layout p level idx total st
    have h1 : processChildren layout (c :: cs) p level idx total st =
        processChildren layout cs p level (idx + 1) total
          (processCondition layout c (some p) level idx total st).2 := rfl
    rw [h1, ihc, ihl]
    simp [genNodesL, genEdgesL, genSizeL, List.append_assoc]
    omega

theorem processCondition_spec (layout : Option RuleLayout) (c : Condition)
    (parent : Option String) (level idx total : Int) (st : FlowState) :
    processCondition layout c parent level idx total st =
      (nodeIdStr st.counter,
       { counter := st.counter + genSize c,
         nodes := st.nodes ++ genNodes layout c parent level idx total st.counter,
         edges := st.edges ++ genEdges layout c parent level idx total st.counter }) :=
  processCondition_spec_pair.1 c layout parent level idx total st

/-! ## Round-trip proof: generated ids, node types, edge endpoints -/

theorem genNodes_id_range_pair :
    (∀ c : Condition, ∀ (layout : Option RuleLayout) (parent : Option String)
      (level idx total : Int) (k : Nat),
      ∀ n ∈ genNodes layout c parent level idx total k,
        ∃ j, k ≤ j ∧ j < k + genSize c ∧ n.id = nodeIdStr j) ∧
    (∀ cs : List Condition, ∀ (layout : Option RuleLayout) (p : String)
      (level idx total : Int) (k : Nat),
      ∀ n ∈ genNodesL layout cs p level idx total k,
        ∃ j, k ≤ j ∧ j < k + genSizeL cs ∧ n.id = nodeIdStr j) := by
  refine condInd _ _ ?_ ?_ ?_ ?_ ?_ ?_ ?_
  · intro cs ihl layout parent level idx total k n hn
    rw [genNodes] at hn
    rcases List.mem_cons.mp hn with h | h
    · exact ⟨k, le_refl k, by simp only [genSize]; omega, by rw [h]; rfl⟩
    · obtain ⟨j, hj1, hj2, hj3⟩ :=
        ihl layout (nodeIdStr k) (level + 1) 0 (cs.length : Int) (k + 1) n h
      exact ⟨j, by omega, by simp only [genSize]; omega, hj3⟩
  · intro cs ihl layout parent level idx total k n hn
    rw [genNodes] at hn
    rcases List.mem_cons.mp hn with h | h
    · exact ⟨k, le_refl k, by simp only [genSize]; omega, by rw [h]; rfl⟩
    · obtain ⟨j, hj1, hj2, hj3⟩ :=
        ihl layout (nodeIdStr k) (level + 1) 0 (cs.length : Int) (k + 1) n h
      exact ⟨j, by omega, by simp only [genSize]; omega, hj3⟩
  · intro c ihc layout parent level idx total k n hn
    rw [genNodes] at hn
    rcases List.mem_cons.mp hn with h | h
    · exact ⟨k, le_refl k, by simp only [genSize]; omega, by rw [h]; rfl⟩
    · obtain ⟨j, hj1, hj2, hj3⟩ :=
        ihc layout (some (nodeIdStr k)) (level + 1) 0 1 (k + 1) n h
      exact ⟨j, by omega, by simp only [genSize]; omega, hj3⟩
  · intro f p o v layout parent level idx total k n hn
    rw [genNodes] at hn
    by_cases hf : truthy f
    · rw [if_pos hf] at hn
      rcases List.mem_singleton.mp hn with h
      exact ⟨k, le_refl k, by simp only [genSize]; omega, by rw [h]; rfl⟩
    · rw [if_neg hf] at hn
      simp at hn
  · intro m layout parent level idx total k n hn
    rw [genNodes] at hn
    by_cases hm : truthy m
    · rw [if_pos hm] at hn
      rcases List.mem_singleton.mp hn with h
      exact ⟨k, le_refl k, by simp only [genSize]; omega, by rw [h]; rfl⟩
    · rw [if_neg hm] at hn
      simp at hn
  · intro layout p level idx total k n hn
    rw [genNodesL] at hn
    simp at hn
  · intro c cs ihc ihl layout p level idx total k n hn
    rw [genNodesL] at hn
    rcases List.mem_append.mp hn with h | h
    · obtain ⟨j, hj1, hj2, hj3⟩ := ihc layout (some p) level idx total k n h
      exact ⟨j, hj1, by simp only [genSizeL]; omega, hj3⟩
    · obtain ⟨j, hj1, hj2, hj3⟩ :=
        ihl layout p level (idx + 1) total (k + genSize c) n h
      exact ⟨j, by omega, by simp only [genSizeL]; omega, hj3⟩

theorem genNodes_id_range {layout : Option RuleLayout} {c : Condition}
    {parent : Option String} {level idx total : Int} {k : Nat} {n : FlowNode}
    (hn : n ∈ genNodes layout c parent level idx total k) :
    ∃ j, k ≤ j ∧ j < k + genSize c ∧ n.id = nodeIdStr j :=
  genNodes_id_range_pair.1 c layout parent level idx total k n hn

theorem genNodesL_id_range {layout : Option RuleLayout} {cs : List Condition}
    {p : String} {level idx total : Int} {k : Nat} {n : FlowNode}
    (hn : n ∈ genNodesL layout cs p level idx total k) :
    ∃ j, k ≤ j ∧ j < k + genSizeL cs ∧ n.id = nodeIdStr j :=
  genNodes_id_range_pair.2 cs layout p level idx total k n hn

theorem genNodes_ntypes_pair :
    (∀ c : Condition, ∀ (layout : Option RuleLayout) (parent : Option String)
      (level idx total : Int) (k : Nat),
      ∀ n ∈ genNodes layout c parent level idx total k,
        n.ntype = "logicalOperator" ∨ n.ntype = "factCondition") ∧
    (∀ cs : List Condition, ∀ (layout : Option RuleLayout) (p : String)
      (level idx total : Int) (k : Nat),
      ∀ n ∈ genNodesL layout cs p level idx total k,
        n.ntype = "logicalOperator" ∨ n.ntype = "factCondition") := by
  refine condInd _ _ ?_ ?_ ?_ ?_ ?_ ?_ ?_
  · intro cs ihl layout parent level idx total k n hn
    rw [genNodes] at hn
    rcases List.mem_cons.mp hn with h | h
    · exact Or.inl (by rw [h]; rfl)
    · exact ihl layout (nodeIdStr k) (level + 1) 0 (cs.length : Int) (k + 1) n h
  · intro cs ihl layout parent level idx total k n hn
    rw [genNodes] at hn
    rcases List.mem_cons.mp hn with h | h
    · exact Or.inl (by rw [h]; rfl)
    · exact ihl layout (nodeIdStr k) (level + 1) 0 (cs.length : Int) (k + 1) n h
  · intro c ihc layout parent level idx total k n hn
    rw [genNodes] at hn
    rcases List.mem_cons.mp hn with h | h
    · exact Or.inl (by rw [h]; rfl)
    · exact ihc layout (some (nodeIdStr k)) (level + 1) 0 1 (k + 1) n h
  · intro f p o v layout parent level idx total k n hn
    rw [genNodes] at hn
    by_cases hf : truthy f
    · rw [if_pos hf] at hn
      exact Or.inr (by rw [List.mem_singleton.mp hn]; rfl)
    · rw [if_neg hf] at hn
      simp at hn
  · intro m layout parent level idx total k n hn
    rw [genNodes] at hn
    by_cases hm : truthy m
    · rw [if_pos hm] at hn
      exact Or.inr (by rw [List.mem_singleton.mp hn]; rfl)
    · rw [if_neg hm] at hn
      simp at hn
  · intro layout p level idx total k n hn
    rw [genNodesL] at hn
    simp at hn
  · intro c cs ihc ihl layout p level idx total k n hn
    rw [genNodesL] at hn
    rcases List.mem_append.mp hn with h | h
    · exact ihc layout (some p) level idx total k n h
    · exact ihl layout p level (idx + 1) total (k + genSize c) n h

theorem genNodes_ntype {layout : Option RuleLayout} {c : Condition}
    {parent : Option String} {level idx total : Int} {k : Nat} {n : FlowNode}
    (hn : n ∈ genNodes layout c parent level idx total k) :
    n.ntype = "logicalOperator" ∨ n.ntype = "factCondition" :=
  genNodes_ntypes_pair.1 c layout parent level idx total k n hn

theorem genEdges_endpoints_pair :
    (∀ c : Condition, ∀ (layout : Option RuleLayout) (parent : Option String)
      (level idx total : Int) (k : Nat),
      ∀ e ∈ genEdges layout c parent level idx total k,
        (∃ j, k ≤ j ∧ j < k + genSize c ∧ e.target = nodeIdStr j) ∧
        ((∃ pid, parent = some pid ∧ e.source = pid) ∨
         (∃ j, k ≤ j ∧ j < k + genSize c ∧ e.source = nodeIdStr j))) ∧
    (∀ cs : List Condition, ∀ (layout : Option RuleLayout) (p : String)
      (level idx total : Int) (k : Nat),
      ∀ e ∈ genEdgesL layout cs p level idx total k,
        (∃ j, k ≤ j ∧ j < k + genSizeL cs ∧ e.target = nodeIdStr j) ∧
        (e.source = p ∨
         (∃ j, k ≤ j ∧ j < k + genSizeL cs ∧ e.source = nodeIdStr j))) := by
  refine condInd _ _ ?_ ?_ ?_ ?_ ?_ ?_ ?_
  · intro cs ihl layout parent level idx total k e he
    rw [genEdges] at he
    rcases List.mem_append.mp he with h | h
    · match parent, h with
      | some pid, h =>
        rw [parentEdge, List.mem_singleton] at h
        refine ⟨⟨k, le_refl k, by simp only [genSize]; omega, by rw [h]; rfl⟩,
          Or.inl ⟨pid, rfl, by rw [h]; rfl⟩⟩
    · obtain ⟨⟨j, hj1, hj2, hj3⟩, hsrc⟩ :=
        ihl layout (nodeIdStr k) (level + 1) 0 (cs.length : Int) (k + 1) e h
      refine ⟨⟨j, by omega, by simp only [genSize]; omega, hj3⟩, ?_⟩
      rcases hsrc with h2 | ⟨j2, hj4, hj5, hj6⟩
      · exact Or.inr ⟨k, le_refl k, by simp only [genSize]; omega, h2⟩
      · exact Or.inr ⟨j2, by omega, by simp only [genSize]; omega, hj6⟩
  · intro cs ihl layout parent level idx total k e he
    rw [genEdges] at he
    rcases List.mem_append.mp he with h | h
    · match parent, h with
      | some pid, h =>
        rw [parentEdge, List.mem_singleton] at h
        refine ⟨⟨k, le_refl k, by simp only [genSize]; omega, by rw [h]; rfl⟩,
          Or.inl ⟨pid, rfl, by rw [h]; rfl⟩⟩
    · obtain ⟨⟨j, hj1, hj2, hj3⟩, hsrc⟩ :=
        ihl layout (nodeIdStr k) (level + 1) 0 (cs.length : Int) (k + 1) e h
      refine ⟨⟨j, by omega, by simp only [genSize]; omega, hj3⟩, ?_⟩
      rcases hsrc with h2 | ⟨j2, hj4, hj5, hj6⟩
      · exact Or.inr ⟨k, le_refl k, by simp only [genSize]; omega, h2⟩
      · exact Or.inr ⟨j2, by omega, by simp only [genSize]; omega, hj6⟩
  · intro c ihc layout parent level idx total k e he
    rw [genEdges] at he
    rcases List.mem_append.mp he with h | h
    · match parent, h with
      | some pid, h =>
        rw [parentEdge, List.mem_singleton] at h
        refine ⟨⟨k, le_refl k, by simp only [genSize]; omega, by rw [h]; rfl⟩,
          Or.inl ⟨pid, rfl, by rw [h]; rfl⟩⟩
    · obtain ⟨⟨j, hj1, hj2, hj3⟩, hsrc⟩ :=
        ihc layout (some (nodeIdStr k)) (level + 1) 0 1 (k + 1) e h
      refine ⟨⟨j, by omega, by simp only [genSize]; omega, hj3⟩, ?_⟩
      rcases hsrc with ⟨pid, hpid, h2⟩ | ⟨j2, hj4, hj5, hj6⟩
      · refine Or.inr ⟨k, le_refl k, by simp only [genSize]; omega, ?_⟩
        rw [h2, (Option.some_inj.mp hpid).symm]
      · exact Or.inr ⟨j2, by omega, by simp only [genSize]; omega, hj6⟩
  · intro f p o v layout parent level idx total k e he
    rw [genEdges] at he
    by_cases hf : truthy f
    · rw [if_pos hf] at he
      match parent, he with
      | some pid, he =>
        rw [parentEdge, List.mem_singleton] at he
        refine ⟨⟨k, le_refl k, by simp only [genSize]; omega, by rw [he]; rfl⟩,
          Or.inl ⟨pid, rfl, by rw [he]; rfl⟩⟩
    · rw [if_neg hf] at he
      simp at he
  · intro m layout parent level idx total k e he
    rw [genEdges] at he
    by_cases hm : truthy m
    · rw [if_pos hm] at he
      match parent, he with
      | some pid, he =>
        rw [parentEdge, List.mem_singleton] at he
        refine ⟨⟨k, le_refl k, by simp only [genSize]; omega, by rw [he]; rfl⟩,
          Or.inl ⟨pid, rfl, by rw [he]; rfl⟩⟩
    · rw [if_neg hm] at he
      simp at he
  · intro layout p level idx total k e he
    rw [genEdgesL] at he
    simp at he
  · intro c cs ihc ihl layout p level idx total k e he
    rw [genEdgesL] at he
    rcases List.mem_append.mp he with h | h
    · obtain ⟨⟨j, hj1, hj2, hj3⟩, hsrc⟩ := ihc layout (some p) level idx total k e h
      refine ⟨⟨j, hj1, by simp only [genSizeL]; omega, hj3⟩, ?_⟩
      rcases hsrc with ⟨pid, hpid, h2⟩ | ⟨j2, hj4, hj5, hj6⟩
      · exact Or.inl (by rw [h2, (Option.some_inj.mp hpid).symm])
      · exact Or.inr ⟨j2, hj4, by simp only [genSizeL]; omega, hj6⟩
    · obtain ⟨⟨j, hj1, hj2, hj3⟩, hsrc⟩ :=
        ihl layout p level (idx + 1) total (k + genSize c) e h
      refine ⟨⟨j, by omega, by simp only [genSizeL]; omega, hj3⟩, ?_⟩
      rcases hsrc with h2 | ⟨j2, hj4, hj5, hj6⟩
      · exact Or.inl h2
      · exact Or.inr ⟨j2, by omega, by simp only [genSizeL]; omega, hj6⟩

/-! ## Round-trip proof: adjacency rows of the generated edges -/

theorem genEdges_adj_outside {layout : Option RuleLayout} {c : Condition}
    {parent : Option String} {level idx total : Int} {k : Nat} {s : String}
    (hs : ∀ j, k ≤ j → j < k + genSize c → s ≠ nodeIdStr j)
    (hp : ∀ pid, parent = some pid → s ≠ pid) :
    adjTargets (genEdges layout c parent level idx total k) s = [] := by
  apply adjTargets_eq_nil
  intro e he hes
  rcases (genEdges_endpoints_pair.1 c layout parent level idx total k e he).2 with
    ⟨pid, hpid, h2⟩ | ⟨j, hj1, hj2, h2⟩
  · exact hp pid hpid (hes.symm.trans h2)
  · exact hs j hj1 hj2 (hes.symm.trans h2)

theorem genEdgesL_adj_outside {layout : Option RuleLayout} {cs : List Condition}
    {p : String} {level idx total : Int} {k : Nat} {s : String}
    (hs : ∀ j, k ≤ j → j < k + genSizeL cs → s ≠ nodeIdStr j)
    (hp : s ≠ p) :
    adjTargets (genEdgesL layout cs p level idx total k) s = [] := by
  apply adjTargets_eq_nil
  intro e he hes
  rcases (genEdges_endpoints_pair.2 cs layout p level idx total k e he).2 with
    h2 | ⟨j, hj1, hj2, h2⟩
  · exact hp (hes.symm.trans h2)
  · exact hs j hj1 hj2 (hes.symm.trans h2)


theorem adjTargets_cons (e : FlowEdge) (l : List FlowEdge) (s : String) :
    adjTargets (e :: l) s =
      (if e.source = s then [e.target] else []) ++ adjTargets l s := by
  by_cases h : e.source = s <;> simp [adjTargets, List.filter, h]

theorem genEdges_adj_parent {layout : Option RuleLayout} {c : Condition}
    {p : String} {level idx total : Int} {k : Nat}
    (hwf : wfShape c = true)
    (hp : ∀ j, k ≤ j → j < k + genSize c → p ≠ nodeIdStr j) :
    adjTargets (genEdges layout c (some p) level idx total k) p =
      [nodeIdStr k] := by
  cases c with
  | all cs =>
    have h1 : genEdges layout (.all cs) (some p) level idx total k =
        condEdge p (nodeIdStr k) ::
          genEdgesL layout cs (nodeIdStr k) (level + 1) 0 (cs.length : Int)
            (k + 1) := rfl
    have hout : adjTargets (genEdgesL layout cs (nodeIdStr k) (level + 1) 0
        (cs.length : Int) (k + 1)) p = [] :=
      genEdgesL_adj_outside
        (fun j hj1 hj2 => hp j (by omega) (by simp only [genSize]; omega))
        (hp k (le_refl k) (by simp only [genSize]; omega))
    rw [h1, adjTargets_cons, hout]
    simp [condEdge]
  | any cs =>
    have h1 : genEdges layout (.any cs) (some p) level idx total k =
        condEdge p (nodeIdStr k) ::
          genEdgesL layout cs (nodeIdStr k) (level + 1) 0 (cs.length : Int)
            (k + 1) := rfl
    have hout : adjTargets (genEdgesL layout cs (nodeIdStr k) (level + 1) 0
        (cs.length : Int) (k + 1)) p = [] :=
      genEdgesL_adj_outside
        (fun j hj1 hj2 => hp j (by omega) (by simp only [genSize]; omega))
        (hp k (le_refl k) (by simp only [genSize]; omega))
    rw [h1, adjTargets_cons, hout]
    simp [condEdge]
  | not c1 =>
    have h1 : genEdges layout (.not c1) (some p) level idx total k =
        condEdge p (nodeIdStr k) ::
          genEdges layout c1 (some (nodeIdStr k)) (level + 1) 0 1 (k + 1) := rfl
    have hout : adjTargets (genEdges layout c1 (some (nodeIdStr k)) (level + 1)
        0 1 (k + 1)) p = [] :=
      genEdges_adj_outside
        (fun j hj1 hj2 => hp j (by omega) (by simp only [genSize]; omega))
        (fun pid hpid =>
          (Option.some_inj.mp hpid) ▸
            hp k (le_refl k) (by simp only [genSize]; omega))
    rw [h1, adjTargets_cons, hout]
    simp [condEdge]
  | fact f pp o v =>
    have hf : truthy f = true := by simpa [wfShape] using hwf
    have h1 : genEdges layout (.fact f pp o v) (some p) level idx total k =
        [condEdge p (nodeIdStr k)] := by
      rw [genEdges, if_pos hf]
      rfl
    rw [h1, adjTargets_cons]
    simp [condEdge, adjTargets]
  | ref n =>
    have hn : truthy n = true := by simpa [wfShape] using hwf
    have h1 : genEdges layout (.ref n) (some p) level idx total k =
        [condEdge p (nodeIdStr k)] := by
      rw [genEdges, if_pos hn]
      rfl
    rw [h1, adjTargets_cons]
    simp [condEdge, adjTargets]

theorem genEdgesL_adj_parent {layout : Option RuleLayout} :
    ∀ (cs : List Condition) (p : String) (level idx total : Int) (k : Nat),
    wfShapeL cs = true →
    (∀ j, k ≤ j → j < k + genSizeL cs → p ≠ nodeIdStr j) →
    adjTargets (genEdgesL layout cs p level idx total k) p =
      childRootsL cs k := by
  intro cs
  induction cs with
  | nil =>
    intro p level idx total k _ _
    rw [genEdgesL, childRootsL]
    rfl
  | cons c rest ih =>
    intro p level idx total k hwf hp
    have hwf1 : wfShape c = true ∧ wfShapeL rest = true := by
      simpa [wfShapeL, Bool.and_eq_true] using hwf
    rw [genEdgesL, adjTargets_append,
      genEdges_adj_parent hwf1.1
        (fun j hj1 hj2 => hp j hj1 (by simp only [genSizeL]; omega)),
      ih p level (idx + 1) total (k + genSize c) hwf1.2
        (fun j hj1 hj2 => hp j (by omega) (by simp only [genSizeL]; omega)),
      childRootsL]
    rfl

theorem genEdges_adj_self {layout : Option RuleLayout} {c : Condition}
    {parent : Option String} {level idx total : Int} {k : Nat}
    (hwf : wfShape c = true)
    (hp : ∀ pid, parent = some pid → pid ≠ nodeIdStr k) :
    adjTargets (genEdges layout c parent level idx total k) (nodeIdStr k) =
      rootTargets c k := by
  have hpe : adjTargets (parentEdge parent k) (nodeIdStr k) = [] := by
    apply adjTargets_eq_nil
    intro e he
    match parent, he with
    | some pid, he =>
      rw [parentEdge, List.mem_singleton] at he
      rw [he]
      exact hp pid rfl
  cases c with
  | all cs =>
    have hwf1 : wfShapeL cs = true := by
      simp [wfShape, Bool.and_eq_true] at hwf
      exact hwf.2
    rw [genEdges, adjTargets_append, hpe, List.nil_append, rootTargets]
    exact genEdgesL_adj_parent cs (nodeIdStr k) (level + 1) 0 (cs.length : Int)
      (k + 1) hwf1 (fun j hj1 _ => nodeIdStr_ne k j (by omega))
  | any cs =>
    have hwf1 : wfShapeL cs = true := by
      simp [wfShape, Bool.and_eq_true] at hwf
      exact hwf.2
    rw [genEdges, adjTargets_append, hpe, List.nil_append, rootTargets]
    exact genEdgesL_adj_parent cs (nodeIdStr k) (level + 1) 0 (cs.length : Int)
      (k + 1) hwf1 (fun j hj1 _ => nodeIdStr_ne k j (by omega))
  | not c1 =>
    have hwf1 : wfShape c1 = true := by simpa [wfShape] using hwf
    rw [genEdges, adjTargets_append, hpe, List.nil_append, rootTargets]
    exact genEdges_adj_parent hwf1 (fun j hj1 _ => nodeIdStr_ne k j (by omega))
  | fact f pp o v =>
    have hf : truthy f = true := by simpa [wfShape] using hwf
    rw [genEdges, if_pos hf, hpe, rootTargets]
  | ref n =>
    have hn : truthy n = true := by simpa [wfShape] using hwf
    rw [genEdges, if_pos hn, hpe, rootTargets]

theorem genEdgesL_adj_in {layout : Option RuleLayout} {c : Condition}
    {rest : List Condition} {p : String} {level idx total : Int} {k j : Nat}
    (hj2 : j < k + genSize c) (hp : p ≠ nodeIdStr j) :
    adjTargets (genEdgesL layout (c :: rest) p level idx total k)
        (nodeIdStr j) =
      adjTargets (genEdges layout c (some p) level idx total k)
        (nodeIdStr j) := by
  rw [genEdgesL, adjTargets_append,
    genEdgesL_adj_outside
      (fun j2 hj3 _ => fun he => absurd (nodeIdStr_inj he) (by omega))
      (fun he => hp he.symm),
    List.append_nil]

theorem genEdgesL_adj_skip {layout : Option RuleLayout} {c : Condition}
    {rest : List Condition} {p : String} {level idx total : Int} {k j : Nat}
    (hj1 : k + genSize c ≤ j) (hp : p ≠ nodeIdStr j) :
    adjTargets (genEdgesL layout (c :: rest) p level idx total k)
        (nodeIdStr j) =
      adjTargets (genEdgesL layout rest p level (idx + 1) total
        (k + genSize c)) (nodeIdStr j) := by
  rw [genEdgesL, adjTargets_append,
    genEdges_adj_outside
      (fun j2 _ hj3 => fun he => absurd (nodeIdStr_inj he) (by omega))
      (fun pid hpid he =>
        hp (by rw [he, (Option.some_inj.mp hpid)])),
    List.nil_append]

/-! ## Round-trip proof: node lookup inside the generated lists -/

theorem genNodes_find_pair :
    (∀ c : Condition, ∀ (layout : Option RuleLayout) (parent : Option String)
      (level idx total : Int) (k : Nat),
      ∀ n ∈ genNodes layout c parent level idx total k,
        findNode (genNodes layout c parent level idx total k) n.id = some n) ∧
    (∀ cs : List Condition, ∀ (layout : Option RuleLayout) (p : String)
      (level idx total : Int) (k : Nat),
      ∀ n ∈ genNodesL layout cs p level idx total k,
        findNode (genNodesL layout cs p level idx total k) n.id = some n) := by
  refine condInd _ _ ?_ ?_ ?_ ?_ ?_ ?_ ?_
  · intro cs ihl layout parent level idx total k n hn
    rw [genNodes] at hn ⊢
    rcases List.mem_cons.mp hn with h | h
    · rw [h]
      exact findNode_cons_self rfl
    · obtain ⟨j, hj1, _, hj3⟩ := genNodesL_id_range h
      rw [findNode_cons_ne (by
        show nodeIdStr k ≠ n.id
        rw [hj3]
        exact nodeIdStr_ne k j (by omega))]
      exact ihl layout (nodeIdStr k) (level + 1) 0 (cs.length : Int) (k + 1) n h
  · intro cs ihl layout parent level idx total k n hn
    rw [genNodes] at hn ⊢
    rcases List.mem_cons.mp hn with h | h
    · rw [h]
      exact findNode_cons_self rfl
    · obtain ⟨j, hj1, _, hj3⟩ := genNodesL_id_range h
      rw [findNode_cons_ne (by
        show nodeIdStr k ≠ n.id
        rw [hj3]
        exact nodeIdStr_ne k j (by omega))]
      exact ihl layout (nodeIdStr k) (level + 1) 0 (cs.length : Int) (k + 1) n h
  · intro c ihc layout parent level idx total k n hn
    rw [genNodes] at hn ⊢
    rcases List.mem_cons.mp hn with h | h
    · rw [h]
      exact findNode_cons_self rfl
    · obtain ⟨j, hj1, _, hj3⟩ := genNodes_id_range h
      rw [findNode_cons_ne (by
        show nodeIdStr k ≠ n.id
        rw [hj3]
        exact nodeIdStr_ne k j (by omega))]
      exact ihc layout (some (nodeIdStr k)) (level + 1) 0 1 (k + 1) n h
  · intro f p o v layout parent level idx total k n hn
    rw [genNodes] at hn ⊢
    by_cases hf : truthy f
    · rw [if_pos hf] at hn ⊢
      rw [List.mem_singleton.mp hn]
      exact findNode_cons_self rfl
    · rw [if_neg hf] at hn
      simp at hn
  · intro m layout parent level idx total k n hn
    rw [genNodes] at hn ⊢
    by_cases hm : truthy m
    · rw [if_pos hm] at hn ⊢
      rw [List.mem_singleton.mp hn]
      exact findNode_cons_self rfl
    · rw [if_neg hm] at hn
      simp at hn
  · intro layout p level idx total k n hn
    rw [genNodesL] at hn
    simp at hn
  · intro c cs ihc ihl layout p level idx total k n hn
    rw [genNodesL] at hn ⊢
    rcases List.mem_append.mp hn with h | h
    · exact findNode_append_left (ihc layout (some p) level idx total k n h)
    · obtain ⟨j, hj1, _, hj3⟩ := genNodesL_id_range h
      rw [findNode_append_right (fun m hm => by
        obtain ⟨j2, _, hj5, hj6⟩ := genNodes_id_range hm
        rw [hj6, hj3]
        exact nodeIdStr_ne j2 j (by omega))]
      exact ihl layout p level (idx + 1) total (k + genSize c) n h

theorem genNodes_find {layout : Option RuleLayout} {c : Condition}
    {parent : Option String} {level idx total : Int} {k : Nat} {n : FlowNode}
    (hn : n ∈ genNodes layout c parent level idx total k) :
    findNode (genNodes layout c parent level idx total k) n.id = some n :=
  genNodes_find_pair.1 c layout parent level idx total k n hn

theorem genNodes_length_pair :
    (∀ c : Condition, ∀ (layout : Option RuleLayout) (parent : Option String)
      (level idx total : Int) (k : Nat), wfShape c = true →
      (genNodes layout c parent level idx total k).length = genSize c) ∧
    (∀ cs : List Condition, ∀ (layout : Option RuleLayout) (p : String)
      (level idx total : Int) (k : Nat), wfShapeL cs = true →
      (genNodesL layout cs p level idx total k).length = genSizeL cs) := by
  refine condInd _ _ ?_ ?_ ?_ ?_ ?_ ?_ ?_
  · intro cs ihl layout parent level idx total k hwf
    have hwf1 : wfShapeL cs = true := by
      simp [wfShape, Bool.and_eq_true] at hwf
      exact hwf.2
    rw [genNodes, genSize, List.length_cons,
      ihl layout (nodeIdStr k) (level + 1) 0 (cs.length : Int) (k + 1) hwf1]
    omega
  · intro cs ihl layout parent level idx total k hwf
    have hwf1 : wfShapeL cs = true := by
      simp [wfShape, Bool.and_eq_true] at hwf
      exact hwf.2
    rw [genNodes, genSize, List.length_cons,
      ihl layout (nodeIdStr k) (level + 1) 0 (cs.length : Int) (k + 1) hwf1]
    omega
  · intro c ihc layout parent level idx total k hwf
    have hwf1 : wfShape c = true := by simpa [wfShape] using hwf
    rw [genNodes, genSize, List.length_cons,
      ihc layout (some (nodeIdStr k)) (level + 1) 0 1 (k + 1) hwf1]
    omega
  · intro f p o v layout parent level idx total k hwf
    have hf : truthy f = true := by simpa [wfShape] using hwf
    rw [genNodes, if_pos hf, genSize]
    rfl
  · intro m layout parent level idx total k hwf
    have hm : truthy m = true := by simpa [wfShape] using hwf
    rw [genNodes, if_pos hm, genSize]
    rfl
  · intro layout p level idx total k _
    rw [genNodesL, genSizeL]
    rfl
  · intro c cs ihc ihl layout p level idx total k hwf
    have hwf1 : wfShape c = true ∧ wfShapeL cs = true := by
      simpa [wfShapeL, Bool.and_eq_true] using hwf
    rw [genNodesL, genSizeL, List.length_append,
      ihc layout (some p) level idx total k hwf1.1,
      ihl layout p level (idx + 1) total (k + genSize c) hwf1.2]

theorem genNodes_root_mem {layout : Option RuleLayout} {c : Condition}
    {parent : Option String} {level idx total : Int} {k : Nat}
    (hwf : wfShape c = true) :
    ∃ d, d ∈ genNodes layout c parent level idx total k ∧
      d.id = nodeIdStr k ∧
      (d.ntype = "logicalOperator" ∨ d.ntype = "factCondition") := by
  cases c with
  | all cs =>
    exact ⟨mkLogicalNode layout "all" parent level idx total k,
      by rw [genNodes]; exact List.mem_cons_self _ _, rfl, Or.inl rfl⟩
  | any cs =>
    exact ⟨mkLogicalNode layout "any" parent level idx total k,
      by rw [genNodes]; exact List.mem_cons_self _ _, rfl, Or.inl rfl⟩
  | not c1 =>
    exact ⟨mkLogicalNode layout "not" parent level idx total k,
      by rw [genNodes]; exact List.mem_cons_self _ _, rfl, Or.inl rfl⟩
  | fact f p o v =>
    have hf : truthy f = true := by simpa [wfShape] using hwf
    exact ⟨mkFactNode layout f p o v parent level idx total k,
      by rw [genNodes, if_pos hf]; exact List.mem_singleton.mpr rfl, rfl,
      Or.inr rfl⟩
  | ref n =>
    have hn : truthy n = true := by simpa [wfShape] using hwf
    exact ⟨mkRefNode layout n parent level idx total k,
      by rw [genNodes, if_pos hn]; exact List.mem_singleton.mpr rfl, rfl,
      Or.inr rfl⟩

theorem reconL_length : ∀ cs : List Condition, (reconL cs).length = cs.length
  | [] => rfl
  | c :: rest => by rw [reconL, List.length_cons, List.length_cons, reconL_length rest]

/-! ## Round-trip proof: reconstruction of a generated subtree -/

theorem buildCondition_gen_pair :
    (∀ c : Condition, ∀ (NS : List FlowNode) (ES : List FlowEdge)
      (layout : Option RuleLayout) (parent : Option String)
      (level idx total : Int) (k fuel : Nat) (extra : Nat → List String),
      wfShape c = true → leafValuesOK c = true → genSize c < fuel →
      (∀ n ∈ genNodes layout c parent level idx total k,
        findNode NS n.id = some n) →
      (∀ j, k ≤ j → j < k + genSize c →
        adjTargets ES (nodeIdStr j) =
          adjTargets (genEdges layout c parent level idx total k)
            (nodeIdStr j) ++ extra j) →
      (∀ j t, t ∈ extra j →
        ∃ en, findNode NS t = some en ∧ en.ntype = "eventNode") →
      (∀ j pid, k ≤ j → j < k + genSize c → parent = some pid →
        pid ≠ nodeIdStr j) →
      buildCondition NS ES fuel (nodeIdStr k) = some (recon c)) ∧
    (∀ cs : List Condition, ∀ (NS : List FlowNode) (ES : List FlowEdge)
      (layout : Option RuleLayout) (p : String) (level idx total : Int)
      (k fuel : Nat) (extra : Nat → List String),
      wfShapeL cs = true → leafValuesOKL cs = true → genSizeL cs < fuel →
      (∀ n ∈ genNodesL layout cs p level idx total k,
        findNode NS n.id = some n) →
      (∀ j, k ≤ j → j < k + genSizeL cs →
        adjTargets ES (nodeIdStr j) =
          adjTargets (genEdgesL layout cs p level idx total k)
            (nodeIdStr j) ++ extra j) →
      (∀ j t, t ∈ extra j →
        ∃ en, findNode NS t = some en ∧ en.ntype = "eventNode") →
      (∀ j, k ≤ j → j < k + genSizeL cs → p ≠ nodeIdStr j) →
      ((childRootsL cs k).filter (fun i =>
          match findNode NS i with
          | some cn => cn.ntype ≠ "eventNode"
          | none => false)).filterMap
        (fun i => buildCondition NS ES fuel i) = reconL cs) := by
  refine condInd _ _ ?_ ?_ ?_ ?_ ?_ ?_ ?_
  · -- all
    intro cs ihl NS ES layout parent level idx total k fuel extra hwf hlv
      hfuel HN HE HX HP
    obtain ⟨f2, rfl⟩ : ∃ f2, fuel = f2 + 1 := ⟨fuel - 1, by omega⟩
    have hwfL : wfShapeL cs = true := by
      simp [wfShape, Bool.and_eq_true] at hwf
      exact hwf.2
    have hroot : findNode NS (nodeIdStr k) =
        some (mkLogicalNode layout "all" parent level idx total k) :=
      HN _ (by rw [genNodes]; exact List.mem_cons_self _ _)
    have hadj : adjTargets ES (nodeIdStr k) =
        childRootsL cs (k + 1) ++ extra k := by
      rw [HE k (le_refl k) (by simp only [genSize]; omega),
        genEdges_adj_self hwf
          (fun pid hpid =>
            HP k pid (le_refl k) (by simp only [genSize]; omega) hpid),
        rootTargets]
    have hchild : ((childRootsL cs (k + 1)).filter (fun i =>
        match findNode NS i with
        | some cn => cn.ntype ≠ "eventNode"
        | none => false)).filterMap
          (fun i => buildCondition NS ES f2 i) = reconL cs := by
      apply ihl NS ES layout (nodeIdStr k) (level + 1) 0 (cs.length : Int)
        (k + 1) f2 extra hwfL (by simpa [leafValuesOK] using hlv)
        (by simp only [genSize] at hfuel; omega)
      · intro n hn
        exact HN n (by rw [genNodes]; exact List.mem_cons_of_mem _ hn)
      · intro j hj1 hj2
        have hpe : adjTargets (parentEdge parent k) (nodeIdStr j) = [] := by
          apply adjTargets_eq_nil
          intro e he
          match parent, he with
          | some pid, he =>
            rw [parentEdge, List.mem_singleton] at he
            rw [he]
            exact HP j pid (by omega) (by simp only [genSize]; omega) rfl
        have h2 := HE j (by omega) (by simp only [genSize]; omega)
        rw [show genEdges layout (.all cs) parent level idx total k =
            parentEdge parent k ++
              genEdgesL layout cs (nodeIdStr k) (level + 1) 0
                (cs.length : Int) (k + 1) from rfl,
          adjTargets_append, hpe, List.nil_append] at h2
        exact h2
      · exact HX
      · intro j hj1 hj2
        exact nodeIdStr_ne k j (by omega)
    have hfe : (extra k).filter (fun i =>
        match findNode NS i with
        | some cn => cn.ntype ≠ "eventNode"
        | none => false) = [] :=
      List.filter_eq_nil_iff.mpr (fun t ht => by
        obtain ⟨en, hen1, hen2⟩ := HX k t ht
        simp [hen1, hen2])
    have hlen : (reconL cs).length ≠ 0 := by
      rw [reconL_length]
      cases cs with
      | nil => simp [wfShape] at hwf
      | cons a l => simp
    have hcc : ((adjTargets ES (nodeIdStr k)).filter (fun i =>
        match findNode NS i with
        | some cn => cn.ntype ≠ "eventNode"
        | none => false)).filterMap (fun i => buildCondition NS ES f2 i) =
        reconL cs := by
      rw [hadj, List.filter_append, hfe, List.append_nil]
      exact hchild
    simp only [buildCondition, hroot, mkLogicalNode, recon]
    rw [hcc]
    simp [hlen, isStr, valueEq]
  · -- any
    intro cs ihl NS ES layout parent level idx total k fuel extra hwf hlv
      hfuel HN HE HX HP
    obtain ⟨f2, rfl⟩ : ∃ f2, fuel = f2 + 1 := ⟨fuel - 1, by omega⟩
    have hwfL : wfShapeL cs = true := by
      simp [wfShape, Bool.and_eq_true] at hwf
      exact hwf.2
    have hroot : findNode NS (nodeIdStr k) =
        some (mkLogicalNode layout "any" parent level idx total k) :=
      HN _ (by rw [genNodes]; exact List.mem_cons_self _ _)
    have hadj : adjTargets ES (nodeIdStr k) =
        childRootsL cs (k + 1) ++ extra k := by
      rw [HE k (le_refl k) (by simp only [genSize]; omega),
        genEdges_adj_self hwf
          (fun pid hpid =>
            HP k pid (le_refl k) (by simp only [genSize]; omega) hpid),
        rootTargets]
    have hchild : ((childRootsL cs (k + 1)).filter (fun i =>
        match findNode NS i with
        | some cn => cn.ntype ≠ "eventNode"
        | none => false)).filterMap
          (fun i => buildCondition NS ES f2 i) = reconL cs := by
      apply ihl NS ES layout (nodeIdStr k) (level + 1) 0 (cs.length : Int)
        (k + 1) f2 extra hwfL (by simpa [leafValuesOK] using hlv)
        (by simp only [genSize] at hfuel; omega)
      · intro n hn
        exact HN n (by rw [genNodes]; exact List.mem_cons_of_mem _ hn)
      · intro j hj1 hj2
        have hpe : adjTargets (parentEdge parent k) (nodeIdStr j) = [] := by
          apply adjTargets_eq_nil
          intro e he
          match parent, he with
          | some pid, he =>
            rw [parentEdge, List.mem_singleton] at he
            rw [he]
            exact HP j pid (by omega) (by simp only [genSize]; omega) rfl
        have h2 := HE j (by omega) (by simp only [genSize]; omega)
        rw [show genEdges layout (.any cs) parent level idx total k =
            parentEdge parent k ++
              genEdgesL layout cs (nodeIdStr k) (level + 1) 0
                (cs.length : Int) (k + 1) from rfl,
          adjTargets_append, hpe, List.nil_append] at h2
        exact h2
      · exact HX
      · intro j hj1 hj2
        exact nodeIdStr_ne k j (by omega)
    have hfe : (extra k).filter (fun i =>
        match findNode NS i with
        | some cn => cn.ntype ≠ "eventNode"
        | none => false) = [] :=
      List.filter_eq_nil_iff.mpr (fun t ht => by
        obtain ⟨en, hen1, hen2⟩ := HX k t ht
        simp [hen1, hen2])
    have hlen : (reconL cs).length ≠ 0 := by
      rw [reconL_length]
      cases cs with
      | nil => simp [wfShape] at hwf
      | cons a l => simp
    have hcc : ((adjTargets ES (nodeIdStr k)).filter (fun i =>
        match findNode NS i with
        | some cn => cn.ntype ≠ "eventNode"
        | none => false)).filterMap (fun i => buildCondition NS ES f2 i) =
        reconL cs := by
      rw [hadj, List.filter_append, hfe, List.append_nil]
      exact hchild
    simp only [buildCondition, hroot, mkLogicalNode, recon]
    rw [hcc]
    simp [hlen, isStr, valueEq]
  · -- not
    intro c ihc NS ES layout parent level idx total k fuel extra hwf hlv
      hfuel HN HE HX HP
    obtain ⟨f2, rfl⟩ : ∃ f2, fuel = f2 + 1 := ⟨fuel - 1, by omega⟩
    have hwf1 : wfShape c = true := by simpa [wfShape] using hwf
    have hroot : findNode NS (nodeIdStr k) =
        some (mkLogicalNode layout "not" parent level idx total k) :=
      HN _ (by rw [genNodes]; exact List.mem_cons_self _ _)
    have hadj : adjTargets ES (nodeIdStr k) =
        [nodeIdStr (k + 1)] ++ extra k := by
      rw [HE k (le_refl k) (by simp only [genSize]; omega),
        genEdges_adj_self hwf
          (fun pid hpid =>
            HP k pid (le_refl k) (by simp only [genSize]; omega) hpid),
        rootTargets]
    obtain ⟨d, hd1, hd2, hd3⟩ :=
      @genNodes_root_mem layout c (some (nodeIdStr k)) (level + 1) 0 1 (k + 1)
        hwf1
    have hfindd : findNode NS (nodeIdStr (k + 1)) = some d := by
      rw [← hd2]
      exact HN d (by rw [genNodes]; exact List.mem_cons_of_mem _ hd1)
    have hdne : d.ntype ≠ "eventNode" := by
      rcases hd3 with h | h <;> simp [h]
    have hbuildc : buildCondition NS ES f2 (nodeIdStr (k + 1)) =
        some (recon c) := by
      apply ihc NS ES layout (some (nodeIdStr k)) (level + 1) 0 1 (k + 1) f2
        extra hwf1 (by simpa [leafValuesOK] using hlv)
        (by simp only [genSize] at hfuel; omega)
      · intro n hn
        exact HN n (by rw [genNodes]; exact List.mem_cons_of_mem _ hn)
      · intro j hj1 hj2
        have hpe : adjTargets (parentEdge parent k) (nodeIdStr j) = [] := by
          apply adjTargets_eq_nil
          intro e he
          match parent, he with
          | some pid, he =>
            rw [parentEdge, List.mem_singleton] at he
            rw [he]
            exact HP j pid (by omega) (by simp only [genSize]; omega) rfl
        have h2 := HE j (by omega) (by simp only [genSize]; omega)
        rw [show genEdges layout (.not c) parent level idx total k =
            parentEdge parent k ++
              genEdges layout c (some (nodeIdStr k)) (level + 1) 0 1 (k + 1)
            from rfl,
          adjTargets_append, hpe, List.nil_append] at h2
        exact h2
      · exact HX
      · intro j pid hj1 hj2 hpid
        rw [← Option.some_inj.mp hpid]
        exact nodeIdStr_ne k j (by omega)
    have hfe : (extra k).filter (fun i =>
        match findNode NS i with
        | some cn => cn.ntype ≠ "eventNode"
        | none => false) = [] :=
      List.filter_eq_nil_iff.mpr (fun t ht => by
        obtain ⟨en, hen1, hen2⟩ := HX k t ht
        simp [hen1, hen2])
    have hcc : ((adjTargets ES (nodeIdStr k)).filter (fun i =>
        match findNode NS i with
        | some cn => cn.ntype ≠ "eventNode"
        | none => false)).filterMap (fun i => buildCondition NS ES f2 i) =
        [recon c] := by
      rw [hadj, List.filter_append, hfe, List.append_nil, List.filter_cons,
        if_pos (by simp [hfindd, hdne]), List.filter_nil]
      simp only [List.filterMap_cons, List.filterMap_nil, hbuildc]
    simp only [buildCondition, hroot, mkLogicalNode, recon]
    rw [hcc]
    simp [isStr, valueEq]
  · -- fact leaf
    intro f p o v NS ES layout parent level idx total k fuel extra hwf hlv
      hfuel HN HE HX HP
    have hf : truthy f = true := by simpa [wfShape] using hwf
    obtain ⟨f2, rfl⟩ : ∃ f2, fuel = f2 + 1 := ⟨fuel - 1, by omega⟩
    have hroot : findNode NS (nodeIdStr k) =
        some (mkFactNode layout f p o v parent level idx total k) :=
      HN _ (by rw [genNodes, if_pos hf]; exact List.mem_singleton.mpr rfl)
    simp only [buildCondition, hroot, mkFactNode, recon]
    cases p <;> simp [normParams] <;>
      by_cases hC : isStr f "condition" = true ∧
        isStr (if truthy o = true then o else Value.str "reference")
          "reference" = true <;>
      simp [hC]
  · -- ref leaf
    intro n NS ES layout parent level idx total k fuel extra hwf hlv hfuel
      HN HE HX HP
    have hn : truthy n = true := by simpa [wfShape] using hwf
    obtain ⟨f2, rfl⟩ : ∃ f2, fuel = f2 + 1 := ⟨fuel - 1, by omega⟩
    have hroot : findNode NS (nodeIdStr k) =
        some (mkRefNode layout n parent level idx total k) :=
      HN _ (by rw [genNodes, if_pos hn]; exact List.mem_singleton.mpr rfl)
    simp only [buildCondition, hroot, mkRefNode, recon]
    simp [isStr, valueEq]
  · -- nil
    intro NS ES layout p level idx total k fuel extra _ _ _ _ _ _ _
    rw [childRootsL, reconL]
    rfl
  · -- cons
    intro c cs ihc ihl NS ES layout p level idx total k fuel extra hwf hlv
      hfuel HN HE HX HP
    have hwf1 : wfShape c = true ∧ wfShapeL cs = true := by
      simpa [wfShapeL, Bool.and_eq_true] using hwf
    have hlv1 : leafValuesOK c = true ∧ leafValuesOKL cs = true := by
      simpa [leafValuesOKL, Bool.and_eq_true] using hlv
    obtain ⟨d, hd1, hd2, hd3⟩ :=
      @genNodes_root_mem layout c (some p) level idx total k hwf1.1
    have hfindd : findNode NS (nodeIdStr k) = some d := by
      rw [← hd2]
      exact HN d (by rw [genNodesL]; exact List.mem_append_left _ hd1)
    have hdne : d.ntype ≠ "eventNode" := by
      rcases hd3 with h | h <;> simp [h]
    have hbuildc : buildCondition NS ES fuel (nodeIdStr k) =
        some (recon c) := by
      apply ihc NS ES layout (some p) level idx total k fuel extra hwf1.1
        hlv1.1 (by simp only [genSizeL] at hfuel; omega)
      · intro n hn
        exact HN n (by rw [genNodesL]; exact List.mem_append_left _ hn)
      · intro j hj1 hj2
        rw [HE j hj1 (by simp only [genSizeL]; omega),
          genEdgesL_adj_in hj2 (HP j hj1 (by simp only [genSizeL]; omega))]
      · exact HX
      · intro j pid hj1 hj2 hpid
        rw [← Option.some_inj.mp hpid]
        exact HP j hj1 (by simp only [genSizeL]; omega)
    have hrest : ((childRootsL cs (k + genSize c)).filter (fun i =>
        match findNode NS i with
        | some cn => cn.ntype ≠ "eventNode"
        | none => false)).filterMap
          (fun i => buildCondition NS ES fuel i) = reconL cs := by
      apply ihl NS ES layout p level (idx + 1) total (k + genSize c) fuel
        extra hwf1.2 hlv1.2 (by simp only [genSizeL] at hfuel; omega)
      · intro n hn
        exact HN n (by rw [genNodesL]; exact List.mem_append_right _ hn)
      · intro j hj1 hj2
        rw [HE j (by omega) (by simp only [genSizeL]; omega),
          genEdgesL_adj_skip hj1
            (HP j (by omega) (by simp only [genSizeL]; omega))]
      · exact HX
      · intro j hj1 hj2
        exact HP j (by omega) (by simp only [genSizeL]; omega)
    rw [childRootsL, reconL, List.filter_cons, if_pos (by simp [hfindd, hdne])]
    simp only [List.filterMap_cons, hbuildc, hrest]

/-! ## Round-trip proof: semantic equivalence of the reconstructed tree -/

theorem evaluateOperator_reference (rt : String → String → Bool)
    (a v : Value) : evaluateOperator rt a (.str "reference") v = false := rfl

theorem evaluateOperator_falsy (rt : String → String → Bool) (a o v : Value)
    (ho : truthy o = false) : evaluateOperator rt a o v = false := by
  cases o with
  | str s =>
    have hs : s = "" := by simpa [truthy] using ho
    subst hs
    rfl
  | num n => rfl
  | bool b => rfl
  | null => rfl
  | undef => rfl
  | arr l => simp [truthy] at ho

theorem resolveActual_normParams (reg : Registry) (f : Value)
    (p : Option Params) (i : Input) :
    resolveActual reg f (normParams p) i = resolveActual reg f p i := by
  cases p with
  | none => rfl
  | some ps =>
    cases ps with
    | nil => rfl
    | cons a l => simp [normParams]

theorem isStr_eq {v : Value} {s : String} (h : isStr v s = true) :
    v = .str s := by
  cases v <;> simp [isStr, valueEq] at h <;> simp [h]

theorem builtinFacts_condition (clock : Clock) :
    builtinFacts clock "condition" = none := rfl

theorem evalConds_recon_pair :
    (∀ c : Condition, leafValuesOK c = true →
      ∀ (rt : String → String → Bool) (clock : Clock)
        (m : List (String × Value)),
      (evalConds rt (builtinFacts clock) (recon c) (some m)).1 =
        (evalConds rt (builtinFacts clock) c (some m)).1) ∧
    (∀ cs : List Condition, leafValuesOKL cs = true →
      ∀ (rt : String → String → Bool) (clock : Clock)
        (m : List (String × Value)),
      (evalCondList rt (builtinFacts clock) (reconL cs) (some m)).1 =
        (evalCondList rt (builtinFacts clock) cs (some m)).1) := by
  refine condInd _ _ ?_ ?_ ?_ ?_ ?_ ?_ ?_
  · intro cs ihl hlv rt clock m
    have e1 : (evalConds rt (builtinFacts clock) (.all (reconL cs))
        (some m)).1 =
        Except.map (fun bs => bs.all id)
          (collectResults (evalCondList rt (builtinFacts clock) (reconL cs)
            (some m)).1) := rfl
    have e2 : (evalConds rt (builtinFacts clock) (.all cs) (some m)).1 =
        Except.map (fun bs => bs.all id)
          (collectResults (evalCondList rt (builtinFacts clock) cs
            (some m)).1) := rfl
    rw [recon, e1, e2, ihl (by simpa [leafValuesOK] using hlv) rt clock m]
  · intro cs ihl hlv rt clock m
    have e1 : (evalConds rt (builtinFacts clock) (.any (reconL cs))
        (some m)).1 =
        Except.map (fun bs => bs.any id)
          (collectResults (evalCondList rt (builtinFacts clock) (reconL cs)
            (some m)).1) := rfl
    have e2 : (evalConds rt (builtinFacts clock) (.any cs) (some m)).1 =
        Except.map (fun bs => bs.any id)
          (collectResults (evalCondList rt (builtinFacts clock) cs
            (some m)).1) := rfl
    rw [recon, e1, e2, ihl (by simpa [leafValuesOK] using hlv) rt clock m]
  · intro c ihc hlv rt clock m
    have h := ihc (by simpa [leafValuesOK] using hlv) rt clock m
    rw [recon]
    cases hc1 : evalConds rt (builtinFacts clock) (recon c) (some m) with
    | mk r1 t1 =>
      cases hc2 : evalConds rt (builtinFacts clock) c (some m) with
      | mk r2 t2 =>
        have hr : r1 = r2 := by
          rw [hc1, hc2] at h
          exact h
        subst hr
        cases r1 with
        | error e => simp [evalConds, hc1, hc2]
        | ok b => simp [evalConds, hc1, hc2]
  · intro f p o v hlv rt clock m
    by_cases hA : (isStr f "condition" &&
        isStr (if truthy o then o else .str "reference") "reference") = true
    · have hf : f = .str "condition" :=
        isStr_eq (Bool.and_elim_left hA)
      subst hf
      have hop : ∀ a : Value, evaluateOperator rt a o v = false := by
        intro a
        by_cases hto : truthy o = true
        · have ho : o = .str "reference" := by
            apply isStr_eq
            have h2 := Bool.and_elim_right hA
            rwa [if_pos hto] at h2
          rw [ho]
          exact evaluateOperator_reference rt a v
        · exact evaluateOperator_falsy rt a o v (by simpa using hto)
      have hres : resolveActual (builtinFacts clock) (.str "condition") p
          (some m) = (.ok (getProp m "condition"), "condition") := by
        rw [resolveActual]
        simp [isStr, valueEq, builtinFacts, getInputProp]
      have hrecon : recon (.fact (.str "condition") p o v) =
          .ref (if truthy v then v else .undef) := by
        rw [recon]
        simp only [hA, if_true]
      rw [hrecon]
      show Except.ok false =
        (evalConds rt (builtinFacts clock) (.fact (.str "condition") p o v)
          (some m)).1
      rw [evalConds]
      rw [if_pos (by simp [truthy])]
      rw [evalFactCondition, hres]
      simp [hop]
    · have hv : (if truthy v then v else Value.undef) = v := by
        by_cases htv : truthy v = true
        · rw [if_pos htv]
        · rw [if_neg htv]
          simp [leafValuesOK] at hlv
          rcases hlv with h | h
          · exact absurd h htv
          · cases v <;> simp_all
      have hrecon : recon (.fact f p o v) =
          .fact f (normParams p) (if truthy o then o else .str "reference")
            v := by
        rw [recon]
        simp only [hA, if_false, Bool.false_eq_true, hv]
      rw [hrecon]
      rw [evalConds, evalConds]
      by_cases htf : truthy f = true
      · rw [if_pos htf, if_pos htf]
        rw [evalFactCondition, evalFactCondition, resolveActual_normParams]
        cases hres : resolveActual (builtinFacts clock) f p (some m) with
        | mk r shown =>
          cases r with
          | error e => simp
          | ok actual =>
            by_cases hto : truthy o = true
            · rw [if_pos hto]
            · rw [if_neg hto]
              simp only []
              rw [evaluateOperator_falsy rt actual o v (by simpa using hto),
                evaluateOperator_reference rt actual v]
      · rw [if_neg htf, if_neg htf]
  · intro n hlv rt clock m
    rw [recon]
  · intro _ rt clock m
    rfl
  · intro c cs ihc ihl hlv rt clock m
    have hlv1 : leafValuesOK c = true ∧ leafValuesOKL cs = true := by
      simpa [leafValuesOKL, Bool.and_eq_true] using hlv
    have e1 : (evalCondList rt (builtinFacts clock)
        (recon c :: reconL cs) (some m)).1 =
        (evalConds rt (builtinFacts clock) (recon c) (some m)).1 ::
          (evalCondList rt (builtinFacts clock) (reconL cs) (some m)).1 := rfl
    have e2 : (evalCondList rt (builtinFacts clock) (c :: cs) (some m)).1 =
        (evalConds rt (builtinFacts clock) c (some m)).1 ::
          (evalCondList rt (builtinFacts clock) cs (some m)).1 := rfl
    rw [reconL, e1, e2, ihc hlv1.1 rt clock m, ihl hlv1.2 rt clock m]

/-! ## Round-trip proof: top-level assembly -/

theorem find_skip_left {α : Type} (p : α → Bool) (l1 l2 : List α)
    (h : ∀ x ∈ l1, p x = false) : (l1 ++ l2).find? p = l2.find? p := by
  induction l1 with
  | nil => rfl
  | cons a l ih =>
    rw [List.cons_append, List.find?_cons_of_neg _ (by simp [h a (by simp)]),
      ih (fun x hx => h x (by simp [hx]))]

theorem ruleToFlow_eq (rule : Rule) (T : Condition) (ev : RuleEvent)
    (evp : EventParams) (hT : rule.conditions = some T)
    (hev : rule.event = some ev) (hevp : ev.params = some evp) :
    ruleToFlow rule = .ok
      (hdrNode rule ::
        (genNodes rule.layout T (some "rule-header") 1 0 1 0 ++
          [evNode rule evp]),
       genEdges rule.layout T (some "rule-header") 1 0 1 0 ++
         [condEdge (nodeIdStr 0) "event-node"]) := by
  simp only [ruleToFlow, hev, hevp, hT]
  rw [processCondition_spec]
  simp [hdrNode, evNode]

theorem roundTrip_builds (rule : Rule) (T : Condition) (evp : EventParams)
    (hwf : wfShape T = true) (hlv : leafValuesOK T = true)
    (hev2 : rule.event ≠ none) :
    ∃ rule',
      flowToRule
        (hdrNode rule ::
          (genNodes rule.layout T (some "rule-header") 1 0 1 0 ++
            [evNode rule evp]))
        (genEdges rule.layout T (some "rule-header") 1 0 1 0 ++
          [condEdge (nodeIdStr 0) "event-node"]) rule = .ok rule' ∧
      rule'.conditions = some (recon T) := by
  set GN := genNodes rule.layout T (some "rule-header") 1 0 1 0 with hGN
  set GE := genEdges rule.layout T (some "rule-header") 1 0 1 0 with hGE
  set NS := hdrNode rule :: (GN ++ [evNode rule evp]) with hNS
  set ES := GE ++ [condEdge (nodeIdStr 0) "event-node"] with hES
  -- header and event lookups
  have hfhdr : NS.find? (fun n => n.ntype = "ruleHeader") =
      some (hdrNode rule) := by
    rw [hNS, List.find?_cons_of_pos _ (by simp [hdrNode])]
  have hfev : NS.find? (fun n => n.ntype = "eventNode") =
      some (evNode rule evp) := by
    rw [hNS, List.find?_cons_of_neg _ (by simp [hdrNode]),
      find_skip_left _ GN _ (fun x hx => by
        rcases genNodes_ntype hx with h | h <;> simp [h]),
      List.find?_cons_of_pos _ (by simp [evNode])]
  -- event-node lookup by id
  have hfevid : findNode NS "event-node" = some (evNode rule evp) := by
    rw [hNS, findNode_cons_ne (by simp [hdrNode]),
      findNode_append_right (fun m hm => by
        obtain ⟨j, _, _, hj3⟩ := genNodes_id_range hm
        rw [hj3]
        exact nodeIdStr_ne_event j)]
    exact findNode_cons_self rfl
  -- root condition node
  obtain ⟨d0, hd01, hd02, hd03⟩ :=
    @genNodes_root_mem rule.layout T (some "rule-header") 1 0 1 0 hwf
  have hfind0 : findNode NS (nodeIdStr 0) = some d0 := by
    rw [hNS, findNode_cons_ne
      (show (hdrNode rule).id ≠ nodeIdStr 0 from
        Ne.symm (nodeIdStr_ne_header 0)), ← hd02]
    exact findNode_append_left (genNodes_find hd01)
  have hd0ne : d0.ntype ≠ "eventNode" := by
    rcases hd03 with h | h <;> simp [h]
  -- the adjacency row of the header
  have hadjh : adjTargets ES "rule-header" = [nodeIdStr 0] := by
    rw [hES, adjTargets_append,
      genEdges_adj_parent hwf
        (fun j _ _ => Ne.symm (nodeIdStr_ne_header j)),
      adjTargets_eq_nil (fun e he => by
        rw [List.mem_singleton] at he
        rw [he]
        exact nodeIdStr_ne_header 0),
      List.append_nil]
  have hrootid : rootConditionId NS ES = some (nodeIdStr 0) := by
    rw [rootConditionId, hadjh, List.find?_cons_of_pos _ (by
      simp [hfind0, hd0ne])]
  -- hypotheses of the reconstruction lemma
  have HN : ∀ n ∈ GN, findNode NS n.id = some n := by
    intro n hn
    obtain ⟨j, _, _, hj3⟩ := genNodes_id_range hn
    rw [hNS, findNode_cons_ne (by
      rw [hj3]
      exact Ne.symm (nodeIdStr_ne_header j))]
    exact findNode_append_left (genNodes_find hn)
  have HE : ∀ j, 0 ≤ j → j < 0 + genSize T →
      adjTargets ES (nodeIdStr j) =
        adjTargets GE (nodeIdStr j) ++
          (if j = 0 then ["event-node"] else []) := by
    intro j _ _
    rw [hES, adjTargets_append]
    by_cases hj : j = 0
    · subst hj
      rw [if_pos rfl]
      congr 1
    · rw [if_neg hj]
      have hnil : adjTargets [condEdge (nodeIdStr 0) "event-node"]
          (nodeIdStr j) = [] :=
        adjTargets_eq_nil (fun e he => by
          rw [List.mem_singleton] at he
          rw [he]
          exact nodeIdStr_ne 0 j (fun h => hj h.symm))
      rw [hnil]
  have HX : ∀ (j : Nat), ∀ t ∈ (if j = 0 then ["event-node"] else []),
      ∃ en, findNode NS t = some en ∧ en.ntype = "eventNode" := by
    intro j t ht
    by_cases hj : j = 0
    · subst hj
      simp only [if_pos] at ht
      rw [List.mem_singleton] at ht
      exact ⟨evNode rule evp, ht ▸ hfevid, rfl⟩
    · rw [if_neg hj] at ht
      simp at ht
  have HP : ∀ (j : Nat) (pid : String), 0 ≤ j → j < 0 + genSize T →
      (some "rule-header" : Option String) = some pid →
      pid ≠ nodeIdStr j := by
    intro j pid _ _ hpid
    rw [← Option.some_inj.mp hpid]
    exact Ne.symm (nodeIdStr_ne_header j)
  have hfuel : genSize T < NS.length + 1 := by
    rw [hNS, List.length_cons, List.length_append, List.length_cons,
      List.length_nil, genNodes_length_pair.1 T rule.layout
        (some "rule-header") 1 0 1 0 hwf]
    omega
  have hbuild : buildCondition NS ES (NS.length + 1) (nodeIdStr 0) =
      some (recon T) :=
    buildCondition_gen_pair.1 T NS ES rule.layout (some "rule-header") 1 0 1 0
      (NS.length + 1) (fun j => if j = 0 then ["event-node"] else [])
      hwf hlv hfuel HN HE HX HP
  -- assemble flowToRule
  match hev3 : rule.event with
  | none => exact absurd hev3 hev2
  | some origEv =>
    rw [flowToRule, hfhdr, hfev, hrootid]
    simp only [hbuild, hev3]
    exact ⟨_, rfl, rfl⟩

/-! ## Claim theorems: the editor round trip -/

/-- **C2 (counterexample).** The claim says the round trip
`flowToRule ∘ ruleToFlow` is semantically lossless for every well-formed
condition tree.  The leaf `{fact: "x", operator: "equal", value: 0}` is
well-formed (its discriminating `fact` field is populated), yet the
projection's `value || condition.condition` rewriting turns the falsy
expected value `0` into `undefined`: the reconstructed tree evaluates to
`false` on the input `{x: 0}` while the original evaluates to `true`. -/
theorem roundTrip_value_zero_cex :
    wfShape (.fact (.str "x") none (.str "equal") (.num 0)) = true ∧
    cexZeroRule.conditions =
      some (.fact (.str "x") none (.str "equal") (.num 0)) ∧
    (roundTripRule cexZeroRule).map Rule.conditions =
      .ok (some (.fact (.str "x") none (.str "equal") .undef)) ∧
    (evalConds regexNever (builtinFacts clock0)
      (.fact (.str "x") none (.str "equal") (.num 0))
      (some [("x", .num 0)])).1 = .ok true ∧
    (evalConds regexNever (builtinFacts clock0)
      (.fact (.str "x") none (.str "equal") .undef)
      (some [("x", .num 0)])).1 = .ok false :=
  ⟨rfl, rfl, rfl, rfl, rfl⟩

/-- **C2 (amended).** For a rule whose conditions form a well-formed tree
`T` (populated discriminating fields, non-empty `all`/`any` child lists)
in which every fact leaf's expected value is truthy or `undefined`,
reconstructing from the projected graph succeeds and yields the tree
`recon T` (ids and positions regenerated, empty params dropped, falsy
leaf `operator` defaulted), and `recon T` is semantically equivalent to
`T`: the simulator's evaluation result (with its built-in dynamic facts)
agrees on every non-null input map, for every regex engine and clock. -/
theorem roundTrip_semantic_equiv (rule : Rule) (T : Condition)
    (ev : RuleEvent) (evp : EventParams)
    (ns : List FlowNode) (es : List FlowEdge)
    (hT : rule.conditions = some T)
    (hwf : wfShape T = true) (hlv : leafValuesOK T = true)
    (hev : rule.event = some ev) (hevp : ev.params = some evp)
    (hflow : ruleToFlow rule = .ok (ns, es)) :
    ∃ rule', flowToRule ns es rule = .ok rule' ∧
      rule'.conditions = some (recon T) ∧
      ∀ (rt : String → String → Bool) (clock : Clock)
        (m : List (String × Value)),
        (evalConds rt (builtinFacts clock) (recon T) (some m)).1 =
          (evalConds rt (builtinFacts clock) T (some m)).1 := by
  rw [ruleToFlow_eq rule T ev evp hT hev hevp] at hflow
  have hpair := Except.ok.inj hflow
  have hns : ns = hdrNode rule ::
      (genNodes rule.layout T (some "rule-header") 1 0 1 0 ++
        [evNode rule evp]) := (congrArg Prod.fst hpair).symm
  have hes : es = genEdges rule.layout T (some "rule-header") 1 0 1 0 ++
      [condEdge (nodeIdStr 0) "event-node"] := (congrArg Prod.snd hpair).symm
  subst hns
  subst hes
  obtain ⟨rule', h1, h2⟩ := roundTrip_builds rule T evp hwf hlv
    (by rw [hev]; exact Option.some_ne_none ev)
  exact ⟨rule', h1, h2,
    fun rt clock m => evalConds_recon_pair.1 T hlv rt clock m⟩

/-- Closed instance of the amended round-trip theorem at the concrete rule
`okRule`, whose tree `okTree` exercises `all`, `any`, `not`, params and a
reference leaf. -/
theorem roundTrip_semantic_equiv_witness :
    ∃ rule', flowToRule okFlowPair.1 okFlowPair.2 okRule = .ok rule' ∧
      rule'.conditions = some (recon okTree) ∧
      ∀ (rt : String → String → Bool) (clock : Clock)
        (m : List (String × Value)),
        (evalConds rt (builtinFacts clock) (recon okTree) (some m)).1 =
          (evalConds rt (builtinFacts clock) okTree (some m)).1 :=
  roundTrip_semantic_equiv okRule okTree
    ⟨some "route_determined", some ⟨some "E", none, none⟩⟩
    ⟨some "E", none, none⟩ okFlowPair.1 okFlowPair.2 rfl rfl rfl rfl rfl rfl
